import Mathlib

/-!
Verification of the multi-inbound client-provisioning and aggregation engine
of the xui-tg-admin Telegram administration bot.

The Go code is shallowly embedded: identifier strings are `String`/`List Char`,
Go maps are association lists updated in insertion order, the remote panel is
an explicit oracle parameter, time is an explicit integer millisecond
parameter, and every fallible remote call is driven by a finite trace of
responses.  Each definition mirrors one Go function and is named after it.
-/

namespace XuiTgAdmin

/-! ## Basic character and string helpers (internal/helpers, validator.go) -/

/-- Check for an ASCII digit, as in the loop body of `helpers.IsNumeric`
(`r < '0' || r > '9'` rejected). -/
def isDig (c : Char) : Bool := '0' ≤ c && c ≤ '9'

/-- `helpers.IsNumeric`: a string is numeric iff it is non-empty and all its
characters are digits. -/
def isNumericStr (s : List Char) : Bool := !s.isEmpty && s.all isDig

theorem isDig_ne_hyphen {c : Char} (h : isDig c = true) : c ≠ '-' := by
  intro hc
  subst hc
  simp [isDig] at h

/-! ## `helpers.ExtractBaseUsername` (validator.go lines 314-328)

The Go loop walks the identifier from its last byte towards the first.  At
each hyphen it tests whether the part after that hyphen is non-empty and
purely numeric; if so it returns the part before the hyphen, otherwise it
keeps scanning.  `extractScan rev suffix` models the loop: `rev` is the part
not yet scanned, reversed, and `suffix` is the part already scanned, in
original order (the Go `email[i+1:]`). -/

def extractScan : List Char → List Char → Option (List Char)
  | [], _ => none
  | c :: rest, suffix =>
    if c = '-' then
      if !suffix.isEmpty && isNumericStr suffix then some rest.reverse
      else extractScan rest (c :: suffix)
    else extractScan rest (c :: suffix)

/-- `helpers.ExtractBaseUsername` on character lists: strip a trailing
hyphen-plus-digits suffix, otherwise return the input unchanged. -/
def extractBase (email : List Char) : List Char :=
  (extractScan email.reverse []).getD email

/-- `helpers.ExtractBaseUsername` (string version). -/
def extractBaseUsername (email : String) : String :=
  ⟨extractBase email.data⟩

/-- The scan found a numeric suffix to strip (used to state when
`extractBaseUsername` leaves its input unchanged). -/
def stripsSuffix (email : List Char) : Bool :=
  (extractScan email.reverse []).isSome

/-- Scanning over a block of digits only moves them from the unscanned part
to the suffix accumulator. -/
theorem extractScan_digits (s : List Char) (hs : ∀ c ∈ s, isDig c = true) :
    ∀ rest acc : List Char,
      extractScan (s.reverse ++ rest) acc = extractScan rest (s ++ acc) := by
  induction s with
  | nil => intro rest acc; simp
  | cons a t ih =>
    intro rest acc
    have ha : isDig a = true := hs a (by simp)
    have ht : ∀ c ∈ t, isDig c = true := fun c hc => hs c (by simp [hc])
    have hrw : (a :: t).reverse ++ rest = t.reverse ++ (a :: rest) := by simp
    rw [hrw, ih ht (a :: rest) acc]
    have hne : ¬ (a = '-') := fun h => isDig_ne_hyphen ha h
    simp [extractScan, hne]

/-- The scan succeeds on any identifier of the shape `b ++ "-" ++ s` with `s`
non-empty and purely numeric, and returns `b`. -/
theorem extractScan_strip (b s : List Char) (h1 : s ≠ [])
    (h2 : ∀ c ∈ s, isDig c = true) :
    extractScan (b ++ '-' :: s).reverse [] = some b := by
  have hrev : (b ++ '-' :: s).reverse = s.reverse ++ ('-' :: b.reverse) := by
    simp
  rw [hrev, extractScan_digits s h2 ('-' :: b.reverse) [], List.append_nil]
  have hne : s.isEmpty = false := by
    simp [List.isEmpty_iff, h1]
  have hall : s.all isDig = true := List.all_eq_true.mpr h2
  have hnum : isNumericStr s = true := by
    simp [isNumericStr, hne, hall]
  simp [extractScan, hne, hnum]

/-- Whenever the scan returns `some p`, the scanned identifier decomposes as
`p ++ "-" ++ s` with `s` non-empty and purely numeric. -/
theorem extractScan_some (r : List Char) :
    ∀ acc p, extractScan r acc = some p →
      ∃ s, r.reverse ++ acc = p ++ '-' :: s ∧ s ≠ [] ∧ ∀ c ∈ s, isDig c = true := by
  induction r with
  | nil => intro acc p h; simp [extractScan] at h
  | cons c rest ih =>
    intro acc p h
    by_cases hc : c = '-'
    · subst hc
      by_cases htest : (!acc.isEmpty && isNumericStr acc) = true
      · rw [extractScan] at h
        simp only [if_pos rfl, htest, if_true] at h
        have hp : rest.reverse = p := by injection h
        refine ⟨acc, ?_, ?_, ?_⟩
        · rw [← hp]; simp
        · intro hacc
          subst hacc
          simp at htest
        · simp only [Bool.and_eq_true] at htest
          have hn := htest.2
          unfold isNumericStr at hn
          simp only [Bool.and_eq_true] at hn
          exact List.all_eq_true.mp hn.2
      · rw [extractScan] at h
        simp only [if_pos rfl, htest] at h
        have h' := ih ('-' :: acc) p (by simpa using h)
        obtain ⟨s, hs1, hs2, hs3⟩ := h'
        exact ⟨s, by simpa using hs1, hs2, hs3⟩
    · rw [extractScan] at h
      simp only [hc, if_false] at h
      have h' := ih (c :: acc) p (by simpa using h)
      obtain ⟨s, hs1, hs2, hs3⟩ := h'
      exact ⟨s, by simpa using hs1, hs2, hs3⟩

/-- C3: base-name extraction strips a trailing hyphen-digits suffix exactly
when that suffix is non-empty and purely numeric, returning the part before
the hyphen; an identifier for which the scan finds no such suffix is returned
unchanged, and indeed no decomposition with a non-empty purely numeric
trailing suffix exists for it. -/
theorem extractBaseUsername_correct (b s e : String) (h1 : s.data ≠ [])
    (h2 : ∀ c ∈ s.data, isDig c = true) (h3 : stripsSuffix e.data = false) :
    extractBaseUsername (b ++ "-" ++ s) = b ∧
    extractBaseUsername e = e ∧
    ¬ ∃ b' s' : List Char, e.data = b' ++ '-' :: s' ∧ s' ≠ [] ∧
        ∀ c ∈ s', isDig c = true := by
  refine ⟨?_, ?_, ?_⟩
  · have hdata : (b ++ "-" ++ s).data = b.data ++ '-' :: s.data := by
      simp [String.data_append]
    show String.mk (extractBase (b ++ "-" ++ s).data) = b
    rw [hdata]
    unfold extractBase
    rw [extractScan_strip b.data s.data h1 h2]
    cases b
    rfl
  · have hnone : extractScan e.data.reverse [] = none := by
      have := h3
      unfold stripsSuffix at this
      exact Option.not_isSome_iff_eq_none.mp (by simp [this])
    show String.mk (extractBase e.data) = e
    unfold extractBase
    rw [hnone]
    cases e
    rfl
  · rintro ⟨b', s', he, hs1, hs2⟩
    have : extractScan e.data.reverse [] = some b' := by
      rw [he]
      exact extractScan_strip b' s' hs1 hs2
    unfold stripsSuffix at h3
    rw [this] at h3
    simp at h3

/-- Witness for C3 at concrete inputs: `alice-2` strips to `alice`,
`alice-v2` is unchanged. -/
theorem extractBaseUsername_correct_witness :
    extractBaseUsername ("alice" ++ "-" ++ "2") = "alice" ∧
    extractBaseUsername "alice-v2" = "alice-v2" := by
  have h := extractBaseUsername_correct "alice" "2" "alice-v2"
    (by decide) (by decide) (by decide)
  exact ⟨h.1, h.2.1⟩

/-! ## `helpers.IsEmailMatchingBaseUsername` (validator.go lines 336-340) -/

/-- `helpers.IsEmailMatchingBaseUsername`: an email matches a base username
iff its extracted base equals that username. -/
def isEmailMatchingBaseUsername (email baseUsername : String) : Bool :=
  extractBaseUsername email == baseUsername

/-- C10: the base-name match predicate holds exactly when base-name
extraction of the email equals the base; consequently a full per-inbound
identifier `b-{digits}` never matches itself, only its stripped base `b`. -/
theorem isEmailMatchingBaseUsername_correct (e b s : String)
    (h1 : s.data ≠ []) (h2 : ∀ c ∈ s.data, isDig c = true) :
    (isEmailMatchingBaseUsername e b = true ↔ extractBaseUsername e = b) ∧
    isEmailMatchingBaseUsername (b ++ "-" ++ s) (b ++ "-" ++ s) = false ∧
    isEmailMatchingBaseUsername (b ++ "-" ++ s) b = true := by
  have hstrip : extractBaseUsername (b ++ "-" ++ s) = b :=
    (extractBaseUsername_correct b s "x" h1 h2 (by decide)).1
  refine ⟨?_, ?_, ?_⟩
  · constructor
    · intro h
      exact eq_of_beq (by simpa [isEmailMatchingBaseUsername] using h)
    · intro h
      simp [isEmailMatchingBaseUsername, h]
  · have hne : b ≠ b ++ "-" ++ s := by
      intro h
      have hlen := congrArg String.length h
      have h1' : 0 < s.length := by
        have : s.data ≠ [] := h1
        cases hs : s.data with
        | nil => exact absurd hs this
        | cons x xs =>
          simp [String.length, hs]
      simp [String.length_append] at hlen
      omega
    simp [isEmailMatchingBaseUsername, hstrip]
    exact hne
  · simp [isEmailMatchingBaseUsername, hstrip]

/-- Witness for C10: `alice-1` does not match itself but matches `alice`. -/
theorem isEmailMatchingBaseUsername_correct_witness :
    isEmailMatchingBaseUsername "alice-1" "alice-1" = false ∧
    isEmailMatchingBaseUsername "alice-1" "alice" = true := by
  have h := isEmailMatchingBaseUsername_correct "alice-1" "alice" "1"
    (by decide) (by decide)
  exact ⟨h.2.1, h.2.2⟩

/-! ## Display grouping of similar emails
(`helpers.GroupSimilarEmails` and friends, validator.go lines 147-304; the
grouping thresholds appear as the literal 3 in the equivalent
`AdminHandler` methods, admin.go lines 1143 and 1208) -/

/-- `strings.Split` on a single separator character. -/
def splitChar (sep : Char) : List Char → List (List Char)
  | [] => [[]]
  | x :: xs =>
    match splitChar sep xs with
    | [] => [[]]
    | h :: t => if x = sep then [] :: h :: t else (x :: h) :: t

/-- Scanning loop of `helpers.RemoveNumericSuffix`: walk from the last
character towards the first; at the FIRST hyphen met, strip if the part after
it is numeric, otherwise stop (the Go loop breaks there). -/
def removeSuffixScan : List Char → List Char → Option (List Char)
  | [], _ => none
  | c :: rest, suffix =>
    if c = '-' then
      if isNumericStr suffix then some rest.reverse else none
    else removeSuffixScan rest (c :: suffix)

/-- `helpers.RemoveNumericSuffix`. -/
def removeNumericSuffix (name : List Char) : List Char :=
  (removeSuffixScan name.reverse []).getD name

/-- `helpers.FindLongestCommonPrefix`. -/
def findLongestCommonPrefix : List Char → List Char → List Char
  | [], _ => []
  | _ :: _, [] => []
  | a :: x, b :: y =>
    if a = b then a :: findLongestCommonPrefix x y else []

/-- `helpers.FindCommonPartWithoutSuffix`: strip numeric suffixes from all
names, fold the pairwise longest-common-prefix over them, and fall back to
the first cleaned name when the result is shorter than 3 characters
(`constants.MinPrefixLengthForGrouping`). -/
def findCommonPartWithoutSuffix (names : List (List Char)) : List Char :=
  match names with
  | [] => []
  | [n] => removeNumericSuffix n
  | n :: rest =>
    let common :=
      List.foldl findLongestCommonPrefix (removeNumericSuffix n)
        (rest.map removeNumericSuffix)
    if common.length < 3 then removeNumericSuffix n else common

/-- Loop of `helpers.ShouldGroupEmails`: collect local parts while checking
domain consistency.  The expected domain starts out as the empty string and
is (re)adopted from the current email whenever it is still empty — exactly
the Go code, where an empty adopted domain is indistinguishable from "no
domain seen yet".  Returns `none` on the early `return false`. -/
def collectLocalParts : List (List Char) → List Char → List (List Char) →
    Option (List Char × List (List Char))
  | [], domain, acc => some (domain, acc)
  | e :: rest, domain, acc =>
    match splitChar '@' e with
    | [p1, p2] =>
      if domain = [] then collectLocalParts rest p2 (acc ++ [p1])
      else if p2 ≠ domain then none
      else collectLocalParts rest domain (acc ++ [p1])
    | _ => collectLocalParts rest domain (acc ++ [e])

/-- Single-pass minimum/maximum of the lengths of `h :: t`, as in the Go
loop of `ShouldGroupEmails`. -/
def minMaxLen (h : List Char) (t : List (List Char)) : Nat × Nat :=
  t.foldl
    (fun mm x =>
      (if x.length < mm.1 then x.length else mm.1,
       if x.length > mm.2 then x.length else mm.2))
    (h.length, h.length)

/-- `helpers.ShouldGroupEmails` (validator.go lines 160-201): group iff the
domain scan accepts and the spread of local-part lengths is strictly below 3
(`constants.MaxLengthDifferenceForGrouping`). -/
def shouldGroupEmails (emails : List (List Char)) : Bool :=
  if emails.length ≤ 1 then false
  else
    match collectLocalParts emails [] [] with
    | none => false
    | some (_, localParts) =>
      if localParts.length < 2 then false
      else
        match localParts with
        | [] => false
        | h :: t =>
          let mm := minMaxLen h t
          decide (mm.2 - mm.1 < 3)

/-- Loop of `helpers.GenerateGroupName`: collect local parts, remember the
first adopted domain (same empty-domain quirk as above, but with no
mismatch check) and whether any entry was a two-part email. -/
def collectForGroupName : List (List Char) → List Char → List (List Char) →
    Bool → List Char × List (List Char) × Bool
  | [], domain, acc, hasEmails => (domain, acc, hasEmails)
  | e :: rest, domain, acc, hasEmails =>
    match splitChar '@' e with
    | [p1, p2] =>
      collectForGroupName rest (if domain = [] then p2 else domain)
        (acc ++ [p1]) true
    | _ => collectForGroupName rest domain (acc ++ [e]) hasEmails

/-- `helpers.GenerateGroupName` (validator.go lines 204-236). -/
def generateGroupName (emails : List (List Char)) : List Char :=
  if emails.length ≤ 1 then emails.headD []
  else
    match collectForGroupName emails [] [] false with
    | (domain, localParts, hasEmails) =>
      if localParts = [] then List.intercalate [',', ' '] emails
      else
        let commonPart := findCommonPartWithoutSuffix localParts
        if hasEmails && !domain.isEmpty then commonPart ++ '@' :: domain
        else commonPart

/-- `helpers.GroupSimilarEmails` (validator.go lines 147-157). -/
def groupSimilarEmails (emails : List (List Char)) : List (List Char) :=
  if emails.length ≤ 1 then emails
  else if shouldGroupEmails emails then [generateGroupName emails]
  else emails

/-- The local part of an email as the grouping loops compute it: the part
before the at sign when the email splits into exactly two parts, otherwise
the whole string. -/
def localPartOf (e : List Char) : List Char :=
  match splitChar '@' e with
  | [p1, _] => p1
  | _ => e

/-- Modelled from the spec: the grouping condition exactly as the claim
words it — all emails that have a domain (split into exactly two parts at
the at sign) share one identical domain, and the difference between the
maximum and minimum local-part lengths is strictly below 3. -/
def specShouldGroup (emails : List (List Char)) : Bool :=
  let domains := emails.filterMap fun e =>
    match splitChar '@' e with
    | [_, p2] => some p2
    | _ => none
  let sameDomain :=
    match domains with
    | [] => true
    | d :: ds => ds.all (fun x => x = d)
  let lens := (emails.map localPartOf).map List.length
  match lens with
  | [] => false
  | l :: ls =>
    decide (2 ≤ emails.length) && sameDomain &&
      decide (ls.foldl Nat.max l - ls.foldl Nat.min l < 3)

/-- The domain of an email, when it splits into exactly two parts. -/
def domainOf (e : List Char) : Option (List Char) :=
  match splitChar '@' e with
  | [_, p2] => some p2
  | _ => none

theorem lcp_spec : ∀ a b : List Char,
    (∃ u, a = findLongestCommonPrefix a b ++ u) ∧
    (∃ v, b = findLongestCommonPrefix a b ++ v) ∧
    (∀ q, (∃ u, a = q ++ u) → (∃ v, b = q ++ v) →
      ∃ w, findLongestCommonPrefix a b = q ++ w) := by
  intro a
  induction a with
  | nil =>
    intro b
    refine ⟨⟨[], rfl⟩, ⟨b, rfl⟩, ?_⟩
    rintro q ⟨u, hu⟩ -
    have hq : q = [] := by
      cases q with
      | nil => rfl
      | cons qh qt => simp at hu
    exact ⟨[], by simp [findLongestCommonPrefix, hq]⟩
  | cons ah ta ih =>
    intro b
    cases b with
    | nil =>
      refine ⟨⟨ah :: ta, by simp [findLongestCommonPrefix]⟩,
        ⟨[], by simp [findLongestCommonPrefix]⟩, ?_⟩
      rintro q - ⟨v, hv⟩
      have hq : q = [] := by
        cases q with
        | nil => rfl
        | cons qh qt => simp at hv
      exact ⟨[], by simp [findLongestCommonPrefix, hq]⟩
    | cons bh tb =>
      by_cases hab : ah = bh
      · subst hab
        obtain ⟨⟨u, hu⟩, ⟨v, hv⟩, hg⟩ := ih tb
        refine ⟨⟨u, ?_⟩, ⟨v, ?_⟩, ?_⟩
        · simpa [findLongestCommonPrefix] using congrArg (ah :: ·) hu
        · simpa [findLongestCommonPrefix] using congrArg (ah :: ·) hv
        · rintro q ⟨u', hu'⟩ ⟨v', hv'⟩
          cases q with
          | nil =>
            exact ⟨findLongestCommonPrefix (ah :: ta) (ah :: tb), by simp⟩
          | cons qh qt =>
            simp only [List.cons_append, List.cons.injEq] at hu' hv'
            obtain ⟨rfl, hu2⟩ := hu'
            obtain ⟨-, hv2⟩ := hv'
            obtain ⟨w, hw⟩ := hg qt ⟨u', hu2⟩ ⟨v', hv2⟩
            exact ⟨w, by simp [findLongestCommonPrefix, hw]⟩
      · refine ⟨⟨ah :: ta, by simp [findLongestCommonPrefix, hab]⟩,
          ⟨bh :: tb, by simp [findLongestCommonPrefix, hab]⟩, ?_⟩
        rintro q ⟨u', hu'⟩ ⟨v', hv'⟩
        cases q with
        | nil => exact ⟨[], by simp [findLongestCommonPrefix, hab]⟩
        | cons qh qt =>
          simp only [List.cons_append, List.cons.injEq] at hu' hv'
          exact absurd (hu'.1.trans hv'.1.symm) hab

theorem lcpFold_spec : ∀ (ls : List (List Char)) (c0 : List Char),
    (∃ u, c0 = List.foldl findLongestCommonPrefix c0 ls ++ u) ∧
    (∀ x ∈ ls, ∃ u, x = List.foldl findLongestCommonPrefix c0 ls ++ u) ∧
    (∀ q, (∃ u, c0 = q ++ u) → (∀ x ∈ ls, ∃ u, x = q ++ u) →
      ∃ w, List.foldl findLongestCommonPrefix c0 ls = q ++ w) := by
  intro ls
  induction ls with
  | nil =>
    intro c0
    refine ⟨⟨[], by simp⟩, by simp, ?_⟩
    intro q hq _
    simpa using hq
  | cons x xs ih =>
    intro c0
    obtain ⟨⟨u0, h0⟩, hmem, hgr⟩ := ih (findLongestCommonPrefix c0 x)
    obtain ⟨⟨uc, hc⟩, ⟨ux, hx⟩, hpair⟩ := lcp_spec c0 x
    simp only [List.foldl_cons]
    refine ⟨⟨u0 ++ uc, ?_⟩, ?_, ?_⟩
    · have h1 : c0
          = (List.foldl findLongestCommonPrefix (findLongestCommonPrefix c0 x)
              xs ++ u0) ++ uc := by
        rw [← h0]
        exact hc
      simpa [List.append_assoc] using h1
    · intro y hy
      rcases List.mem_cons.mp hy with hy | hy
      · subst hy
        have h1 : y
            = (List.foldl findLongestCommonPrefix (findLongestCommonPrefix c0
                y) xs ++ u0) ++ ux := by
          rw [← h0]
          exact hx
        exact ⟨u0 ++ ux, by simpa [List.append_assoc] using h1⟩
      · exact hmem y hy
    · intro q hq hall
      have hqx : ∃ v, x = q ++ v := hall x (by simp)
      obtain ⟨w0, hw0⟩ := hpair q hq hqx
      exact hgr q ⟨w0, hw0⟩ (fun y hy => hall y (by simp [hy]))

theorem ite_lt_eq_min (a x : Nat) : (if x < a then x else a) = Nat.min a x := by
  simp only [Nat.min_def]
  split <;> split <;> omega

theorem ite_gt_eq_max (b x : Nat) : (if x > b then x else b) = Nat.max b x := by
  simp only [Nat.max_def]
  split <;> split <;> omega

theorem minMaxLen_eq : ∀ (t : List (List Char)) (a b : Nat),
    t.foldl
      (fun mm x =>
        (if x.length < mm.1 then x.length else mm.1,
         if x.length > mm.2 then x.length else mm.2)) (a, b)
      = ((t.map List.length).foldl Nat.min a,
         (t.map List.length).foldl Nat.max b) := by
  intro t
  induction t with
  | nil => intro a b; simp
  | cons x xs ih =>
    intro a b
    simp only [List.foldl_cons, List.map_cons]
    rw [ih, ite_lt_eq_min, ite_gt_eq_max]

theorem collectLocalParts_same_domain (d : List Char) :
    ∀ (emails : List (List Char)) (dom : List Char) (acc : List (List Char)),
      (dom = [] ∨ dom = d) →
      (∀ e ∈ emails, domainOf e = none ∨ domainOf e = some d) →
      ∃ dom2, collectLocalParts emails dom acc
          = some (dom2, acc ++ emails.map localPartOf) ∧
          (dom2 = [] ∨ dom2 = d) := by
  intro emails
  induction emails with
  | nil =>
    intro dom acc hdom _
    exact ⟨dom, by simp [collectLocalParts], hdom⟩
  | cons e rest ih =>
    intro dom acc hdom hall
    have hrest : ∀ x ∈ rest, domainOf x = none ∨ domainOf x = some d :=
      fun x hx => hall x (by simp [hx])
    have he := hall e (by simp)
    rcases hsp : splitChar '@' e with - | ⟨p1, t⟩
    · -- splitChar never returns [], but the match still sends [] to the
      -- catch-all branch
      have hlp : localPartOf e = e := by simp [localPartOf, hsp]
      obtain ⟨dom2, hrec, hdom2⟩ := ih dom (acc ++ [e]) hdom hrest
      refine ⟨dom2, ?_, hdom2⟩
      simp [collectLocalParts, hsp, hrec, hlp]
    · cases t with
      | nil =>
        have hlp : localPartOf e = e := by simp [localPartOf, hsp]
        obtain ⟨dom2, hrec, hdom2⟩ := ih dom (acc ++ [e]) hdom hrest
        refine ⟨dom2, ?_, hdom2⟩
        simp [collectLocalParts, hsp, hrec, hlp]
      | cons p2 t2 =>
        cases t2 with
        | nil =>
          -- two-part email: its domain is d
          have hp2 : p2 = d := by
            rcases he with he | he <;> simp [domainOf, hsp] at he
            exact he
          subst hp2
          have hlp : localPartOf e = p1 := by simp [localPartOf, hsp]
          by_cases hd0 : dom = []
          · subst hd0
            obtain ⟨dom2, hrec, hdom2⟩ :=
              ih p2 (acc ++ [p1]) (by right; rfl) hrest
            refine ⟨dom2, ?_, hdom2⟩
            simp [collectLocalParts, hsp, hrec, hlp]
          · have hdd : dom = p2 := by
              rcases hdom with h | h
              · exact absurd h hd0
              · exact h
            subst hdd
            obtain ⟨dom2, hrec, hdom2⟩ :=
              ih dom (acc ++ [p1]) (by right; rfl) hrest
            refine ⟨dom2, ?_, hdom2⟩
            simp [collectLocalParts, hsp, hd0, hrec, hlp]
        | cons p3 t3 =>
          have hlp : localPartOf e = e := by simp [localPartOf, hsp]
          obtain ⟨dom2, hrec, hdom2⟩ := ih dom (acc ++ [e]) hdom hrest
          refine ⟨dom2, ?_, hdom2⟩
          simp [collectLocalParts, hsp, hrec, hlp]

theorem collectForGroupName_plain :
    ∀ (emails : List (List Char)) (dom : List Char) (acc : List (List Char))
      (he : Bool), (∀ e ∈ emails, splitChar '@' e = [e]) →
      collectForGroupName emails dom acc he = (dom, acc ++ emails, he) := by
  intro emails
  induction emails with
  | nil => intro dom acc he _; simp [collectForGroupName]
  | cons e rest ih =>
    intro dom acc he hall
    have hsp : splitChar '@' e = [e] := hall e (by simp)
    have hrest : ∀ x ∈ rest, splitChar '@' x = [x] :=
      fun x hx => hall x (by simp [hx])
    rw [show collectForGroupName (e :: rest) dom acc he
        = collectForGroupName rest dom (acc ++ [e]) he by
      simp [collectForGroupName, hsp]]
    rw [ih dom (acc ++ [e]) he hrest]
    simp

/-- C7 counterexample: in the two-email list [alice@, bob@xx] both emails
split into exactly two parts at the at sign, with the distinct domains
(empty) and xx, so the grouping condition as the claim words it fails; the
code nevertheless merges the list into the single label alice@xx, because an
adopted empty domain is indistinguishable from no domain seen yet. -/
theorem groupSimilarEmails_claim_false :
    specShouldGroup [("alice@").data, ("bob@xx").data] = false ∧
    groupSimilarEmails [("alice@").data, ("bob@xx").data]
      = [("alice@xx").data] := by
  decide

/-- C7 (amended): for two or more emails whose two-part members all carry the
single shared domain d, display grouping collapses them into one label
exactly when the difference between maximum and minimum local-part length is
strictly below 3 characters; merging happens exactly when that condition
holds; the merged-label computation over the underlying names strips numeric
suffixes, takes the pairwise-folded common part — which is a common prefix
of all stripped names and extends every other common prefix, i.e. is the
longest common prefix — and falls back to the first stripped name when that
common part is shorter than 3 characters; when no email carries an at sign
the generated label is exactly that computation. -/
theorem groupSimilarEmails_amended
    (d e0 e1 : List Char) (rest : List (List Char))
    (n0 n1 : List Char) (nrest : List (List Char))
    (hdom : ∀ e ∈ e0 :: e1 :: rest, domainOf e = none ∨ domainOf e = some d) :
    (shouldGroupEmails (e0 :: e1 :: rest) = true ↔
      ((e1 :: rest).map (fun e => (localPartOf e).length)).foldl Nat.max
          (localPartOf e0).length
        - ((e1 :: rest).map (fun e => (localPartOf e).length)).foldl Nat.min
          (localPartOf e0).length < 3) ∧
    (groupSimilarEmails (e0 :: e1 :: rest)
        = [generateGroupName (e0 :: e1 :: rest)] ↔
      shouldGroupEmails (e0 :: e1 :: rest) = true) ∧
    (shouldGroupEmails (e0 :: e1 :: rest) = false →
      groupSimilarEmails (e0 :: e1 :: rest) = e0 :: e1 :: rest) ∧
    ((∀ e ∈ e0 :: e1 :: rest, splitChar '@' e = [e]) →
      generateGroupName (e0 :: e1 :: rest)
        = findCommonPartWithoutSuffix (e0 :: e1 :: rest)) ∧
    (findCommonPartWithoutSuffix (n0 :: n1 :: nrest)
        = (if (List.foldl findLongestCommonPrefix (removeNumericSuffix n0)
                ((n1 :: nrest).map removeNumericSuffix)).length < 3
           then removeNumericSuffix n0
           else List.foldl findLongestCommonPrefix (removeNumericSuffix n0)
             ((n1 :: nrest).map removeNumericSuffix)) ∧
      (∀ x ∈ (n0 :: n1 :: nrest).map removeNumericSuffix,
        ∃ u, x = List.foldl findLongestCommonPrefix (removeNumericSuffix n0)
            ((n1 :: nrest).map removeNumericSuffix) ++ u) ∧
      (∀ q, (∀ x ∈ (n0 :: n1 :: nrest).map removeNumericSuffix,
          ∃ u, x = q ++ u) →
        ∃ w, List.foldl findLongestCommonPrefix (removeNumericSuffix n0)
            ((n1 :: nrest).map removeNumericSuffix) = q ++ w)) := by
  obtain ⟨dom2, hcol, -⟩ :=
    collectLocalParts_same_domain d (e0 :: e1 :: rest) [] [] (Or.inl rfl) hdom
  have hshould : shouldGroupEmails (e0 :: e1 :: rest)
      = decide
        (((e1 :: rest).map (fun e => (localPartOf e).length)).foldl Nat.max
            (localPartOf e0).length
          - ((e1 :: rest).map (fun e => (localPartOf e).length)).foldl Nat.min
            (localPartOf e0).length < 3) := by
    have hA : ¬ ((e0 :: e1 :: rest).length ≤ 1) := by simp
    have hB :
        ¬ ((localPartOf e0 :: localPartOf e1 :: rest.map localPartOf).length
          < 2) := by simp
    simp only [shouldGroupEmails, hcol, List.map_cons, List.nil_append, hA,
      if_false, hB, minMaxLen, minMaxLen_eq, List.map_map]
    rfl
  refine ⟨?_, ?_, ?_, ?_, ?_, ?_, ?_⟩
  · rw [hshould]
    exact decide_eq_true_iff
  · constructor
    · intro hmerge
      by_contra hne
      have hfalse : shouldGroupEmails (e0 :: e1 :: rest) = false :=
        Bool.eq_false_iff.mpr hne
      rw [groupSimilarEmails] at hmerge
      simp only [hfalse] at hmerge
      have := congrArg List.length hmerge
      simp at this
    · intro htrue
      rw [groupSimilarEmails]
      simp [htrue]
  · intro hfalse
    rw [groupSimilarEmails]
    simp [hfalse]
  · intro hplain
    rw [generateGroupName]
    rw [collectForGroupName_plain (e0 :: e1 :: rest) [] [] false hplain]
    simp
  · rfl
  · intro x hx
    obtain ⟨⟨u0, h0⟩, hmem, -⟩ :=
      lcpFold_spec ((n1 :: nrest).map removeNumericSuffix)
        (removeNumericSuffix n0)
    rw [List.map_cons] at hx
    rcases List.mem_cons.mp hx with hx1 | hx2
    · exact ⟨u0, by rw [hx1]; exact h0⟩
    · exact hmem x hx2
  · intro q hq
    obtain ⟨-, -, hgr⟩ :=
      lcpFold_spec ((n1 :: nrest).map removeNumericSuffix)
        (removeNumericSuffix n0)
    refine hgr q (hq (removeNumericSuffix n0) (by simp)) ?_
    intro y hy
    refine hq y ?_
    rw [List.map_cons]
    exact List.mem_cons_of_mem _ hy

/-- Witness for the amended C7: alice-1, alice-2, alice-10 (length spread 1)
merge into the single label alice; alice-1 and alice-123456 (length spread 5)
stay apart. -/
theorem groupSimilarEmails_amended_witness :
    groupSimilarEmails
        [("alice-1").data, ("alice-2").data, ("alice-10").data]
      = [("alice").data] ∧
    groupSimilarEmails [("alice-1").data, ("alice-123456").data]
      = [("alice-1").data, ("alice-123456").data] := by
  have h3 := groupSimilarEmails_amended [] ("alice-1").data ("alice-2").data
    [("alice-10").data] ("alice-1").data ("alice-2").data
    [("alice-10").data] (by decide)
  have h2 := groupSimilarEmails_amended [] ("alice-1").data
    ("alice-123456").data [] ("alice-1").data ("alice-123456").data []
    (by decide)
  constructor
  · have hm := h3.2.1.mpr (h3.1.mpr (by decide))
    rw [hm]
    decide
  · refine h2.2.2.1 (Bool.eq_false_iff.mpr ?_)
    intro htrue
    exact absurd (h2.1.mp htrue) (by decide)

/-! ## Data model (internal/models)

`models.Inbound.Settings` is a JSON string in Go, parsed on demand with
`json.Unmarshal`.  The embedding replaces it by the three observationally
distinct parse outcomes: empty string, unparseable blob, parsed client list
(spec section 9 prescribes exactly this two-stage view). -/

/-- `models.InboundClient` — one client record inside an inbound's settings
blob.  The `id` field is the UUID referenced as `client.ID` by
`xrayclient.extractClientUUID`. -/
structure InboundClient where
  id : String
  email : String
  enable : Bool
  expiryTime : Int
  subId : String
  tgId : String
deriving DecidableEq, Repr

/-- Parse outcome of `models.Inbound.Settings`. -/
inductive SettingsBlob where
  | empty
  | malformed
  | parsed (clients : List InboundClient)
deriving DecidableEq, Repr

/-- `models.ClientStat` — per-client usage counters reported by the panel. -/
structure ClientStat where
  id : Int
  inboundId : Int
  enable : Bool
  email : String
  up : Int
  down : Int
  expiryTime : Int
  total : Int
  reset : Int
deriving DecidableEq, Repr

/-- `models.Inbound`. -/
structure Inbound where
  id : Int
  up : Int
  down : Int
  total : Int
  remark : String
  enable : Bool
  expiryTime : Int
  clientStats : List ClientStat
  settings : SettingsBlob
deriving DecidableEq, Repr

/-- `models.Client` — the record submitted on a client-add request.  The Go
`ExpiryTime *int64` pointer is always set on the creation paths, so it is a
plain integer here. -/
structure Client where
  id : String
  enable : Bool
  flow : Option String
  email : String
  totalGB : Int
  limitIP : Int
  expiryTime : Int
  fingerprint : String
  tgId : String
  subId : String
deriving DecidableEq, Repr

/-! ## Client creation fan-out
(`AdminHandler.processDuration`, admin.go lines 439-593, and
`createClientsForAllInbounds` / `calculateExpiryTime`,
admin_client_operations.go) -/

/-- `handlers.ClientCreationParams` (minus the duration display string):
everything fixed once per logical create request.  `commonSubId` is the
subscription identifier generated once by `models.GenerateSubID` and
`baseFingerprint` the timestamp-derived fingerprint prefix. -/
structure CreationParams where
  baseUsername : String
  commonSubId : String
  baseFingerprint : String
  senderID : Int
  expiryTime : Int
deriving DecidableEq, Repr

/-- `helpers.FormatEmailWithInboundNumber` with
`constants.UsernameSeparator` = "-". -/
def formatEmailWithInboundNumber (base : String) (n : Nat) : String :=
  base ++ "-" ++ toString n

/-- The `models.Client` literal built in the body of the creation loop for
the inbound at 0-based position `i` of the enabled list. -/
def mkClientForInbound (p : CreationParams) (i : Nat) : Client :=
  { id := formatEmailWithInboundNumber p.baseUsername (i + 1)
  , enable := true
  , flow := none
  , email := formatEmailWithInboundNumber p.baseUsername (i + 1)
  , totalGB := 0
  , limitIP := 0
  , expiryTime := p.expiryTime
  , fingerprint := p.baseFingerprint ++ "-" ++ toString (i + 1)
  , tgId := toString p.senderID
  , subId := p.commonSubId }

/-- The sequence of (inbound id, client) pairs passed to `AddClient` by the
creation loop, in loop order; one request per enabled inbound regardless of
earlier failures (the Go loop continues on error). -/
def submitLoop (p : CreationParams) : Nat → List Inbound → List (Int × Client)
  | _, [] => []
  | i, ib :: rest => (ib.id, mkClientForInbound p i) :: submitLoop p (i + 1) rest

/-- All client-add submissions of one create request over the enabled
inbound list. -/
def submittedClients (p : CreationParams) (enabled : List Inbound) :
    List (Int × Client) :=
  submitLoop p 0 enabled

/-- The accumulation of `createClientsForAllInbounds`: created emails,
per-inbound failure reports (modelled by the failing inbound's id, one entry
per rejecting inbound, mirroring the `Inbound %d: %v` strings), and the
`addedToAny` flag.  `accept i` tells whether the remote panel accepted the
add request of the i-th enabled inbound. -/
def createLoop (p : CreationParams) (accept : Nat → Bool) :
    Nat → List Inbound → List String × List Int × Bool
  | _, [] => ([], [], false)
  | i, ib :: rest =>
    let email := formatEmailWithInboundNumber p.baseUsername (i + 1)
    let r := createLoop p accept (i + 1) rest
    if accept i then (email :: r.1, r.2.1, true)
    else (r.1, ib.id :: r.2.1, r.2.2)

/-- Overall outcome of `processDuration` after duration parsing: the hard
errors for missing/empty enabled inbounds, the hard failure when no inbound
accepted (per-inbound warnings, nothing created), and the soft success
(created identifiers plus warnings). -/
inductive CreateOutcome where
  | noInbounds
  | noEnabledInbounds
  | totalFailure (warnings : List Int)
  | ok (createdEmails : List String) (warnings : List Int)
deriving DecidableEq, Repr

/-- `AdminHandler.processDuration` from the point where the duration has been
parsed: filter the enabled inbounds, fan the add-client request out over
them, and classify the outcome. -/
def processDuration (inbounds : List Inbound) (p : CreationParams)
    (accept : Nat → Bool) : CreateOutcome :=
  if inbounds.isEmpty then .noInbounds
  else
    let enabled := inbounds.filter (fun ib => ib.enable)
    if enabled.isEmpty then .noEnabledInbounds
    else
      let r := createLoop p accept 0 enabled
      if r.2.2 = false then .totalFailure r.2.1
      else .ok r.1 r.2.1

/-- Duration input after `strconv.Atoi` / the Infinite button. -/
inductive DurationInput where
  | infinite
  | days (d : Int)
deriving DecidableEq, Repr

/-- `validation.ValidateDuration` after `strconv.Atoi`. -/
def validateDuration (d : Int) : Except String Int :=
  if d < 1 then .error "duration must be at least 1 day"
  else if d > 3650 then .error "duration cannot exceed 3650 days"
  else .ok d

/-- `handlers.calculateExpiryTime`, at millisecond granularity: infinite
duration is expiry 0; otherwise the validated day count is added to the
current time (`time.Now().Add(days*24*time.Hour).UnixMilli()`, an exact
whole number of milliseconds). -/
def calculateExpiryTime (dur : DurationInput) (nowMs : Int) :
    Except String Int :=
  match dur with
  | .infinite => .ok 0
  | .days d =>
    match validateDuration d with
    | .error e => .error e
    | .ok days => .ok (nowMs + days * (24 * 60 * 60 * 1000))

theorem createLoop_spec (p : CreationParams) (accept : Nat → Bool) :
    ∀ (l : List Inbound) (i : Nat),
      createLoop p accept i l =
        ((((List.range' i l.length).zip l).filter (fun x => accept x.1)).map
            (fun x => formatEmailWithInboundNumber p.baseUsername (x.1 + 1)),
         (((List.range' i l.length).zip l).filter (fun x => !accept x.1)).map
            (fun x => x.2.id),
         (List.range' i l.length).any accept) := by
  intro l
  induction l with
  | nil => intro i; simp [createLoop]
  | cons ib rest ih =>
    intro i
    simp only [createLoop, List.length_cons, List.range'_succ,
      List.zip_cons_cons, List.any_cons]
    rw [ih (i + 1)]
    by_cases h : accept i = true
    · simp [h]
    · simp only [Bool.not_eq_true] at h
      simp [h]

theorem submitLoop_length (p : CreationParams) :
    ∀ (l : List Inbound) (j : Nat), (submitLoop p j l).length = l.length := by
  intro l
  induction l with
  | nil => intro j; simp [submitLoop]
  | cons ib rest ih => intro j; simp [submitLoop, ih]

theorem submitLoop_getElem (p : CreationParams) :
    ∀ (l : List Inbound) (j i : Nat),
      (submitLoop p j l)[i]?
        = (l[i]?).map (fun ib => (ib.id, mkClientForInbound p (j + i))) := by
  intro l
  induction l with
  | nil => intro j i; simp [submitLoop]
  | cons ib rest ih =>
    intro j i
    cases i with
    | zero => simp [submitLoop]
    | succ k =>
      have hji : j + 1 + k = j + (k + 1) := by omega
      simp [submitLoop, ih (j + 1) k, hji]

theorem submitLoop_shared_fields (p : CreationParams) :
    ∀ (l : List Inbound) (j : Nat), ∀ x ∈ submitLoop p j l,
      x.2.subId = p.commonSubId ∧ x.2.expiryTime = p.expiryTime := by
  intro l
  induction l with
  | nil => intro j x hx; simp [submitLoop] at hx
  | cons ib rest ih =>
    intro j x hx
    rcases List.mem_cons.mp hx with hx | hx
    · subst hx; exact ⟨rfl, rfl⟩
    · exact ih (j + 1) x hx

/-- C1: the create fan-out distinguishes exactly three outcomes: with no
(enabled) inbounds it fails hard with nothing attempted; when every attempted
inbound rejects the client it fails hard with one warning per inbound and
nothing created; when at least one inbound accepts it reports overall
success, with one created identifier per accepting inbound and one warning
per rejecting inbound. -/
theorem processDuration_three_outcomes (inbounds : List Inbound)
    (p : CreationParams) (accept : Nat → Bool) :
    (inbounds.filter (fun ib => ib.enable) = [] →
      processDuration inbounds p accept = CreateOutcome.noInbounds ∨
      processDuration inbounds p accept = CreateOutcome.noEnabledInbounds) ∧
    (inbounds.filter (fun ib => ib.enable) ≠ [] →
      (∀ i < (inbounds.filter (fun ib => ib.enable)).length,
        accept i = false) →
      processDuration inbounds p accept
          = CreateOutcome.totalFailure
            (createLoop p accept 0
              (inbounds.filter (fun ib => ib.enable))).2.1 ∧
      (createLoop p accept 0
          (inbounds.filter (fun ib => ib.enable))).2.1.length
        = (inbounds.filter (fun ib => ib.enable)).length ∧
      (createLoop p accept 0 (inbounds.filter (fun ib => ib.enable))).1
        = []) ∧
    (inbounds.filter (fun ib => ib.enable) ≠ [] →
      (∃ i, i < (inbounds.filter (fun ib => ib.enable)).length ∧
        accept i = true) →
      processDuration inbounds p accept
          = CreateOutcome.ok
            (createLoop p accept 0 (inbounds.filter (fun ib => ib.enable))).1
            (createLoop p accept 0
              (inbounds.filter (fun ib => ib.enable))).2.1 ∧
      (createLoop p accept 0 (inbounds.filter (fun ib => ib.enable))).1.length
        = (List.range
            (inbounds.filter (fun ib => ib.enable)).length).countP accept ∧
      (createLoop p accept 0
          (inbounds.filter (fun ib => ib.enable))).2.1.length
        = (List.range (inbounds.filter (fun ib => ib.enable)).length).countP
            (fun i => !accept i)) := by
  have hspec :=
    createLoop_spec p accept (inbounds.filter (fun ib => ib.enable)) 0
  have hlenr :
      (List.range' 0 (inbounds.filter (fun ib => ib.enable)).length).length
        = (inbounds.filter (fun ib => ib.enable)).length := by simp
  refine ⟨?_, ?_, ?_⟩
  · intro h
    cases hi : inbounds with
    | nil => left; simp [processDuration, hi]
    | cons a l =>
      right
      rw [← hi]
      have hne : inbounds.isEmpty = false := by simp [hi]
      simp [processDuration, hne, h]
  · intro hne hall
    have hinb : inbounds.isEmpty = false := by
      cases hi : inbounds with
      | nil => exact absurd (by simp [hi]) hne
      | cons a l => simp
    have hanyf :
        (List.range'
          0 (inbounds.filter (fun ib => ib.enable)).length).any accept
          = false := by
      rw [List.any_eq_false]
      intro x hx
      have hxlt : x < (inbounds.filter (fun ib => ib.enable)).length := by
        have h1 := List.mem_range'_1.mp hx
        omega
      simp [hall x hxlt]
    have hflag :
        (createLoop p accept 0
          (inbounds.filter (fun ib => ib.enable))).2.2 = false := by
      rw [hspec]
      exact hanyf
    have hallzip : ∀ x ∈ (List.range'
        0 (inbounds.filter (fun ib => ib.enable)).length).zip
          (inbounds.filter (fun ib => ib.enable)),
        (!accept x.1) = true := by
      intro x hx
      have hx1 := (List.of_mem_zip hx).1
      have hxlt : x.1 < (inbounds.filter (fun ib => ib.enable)).length := by
        have h1 := List.mem_range'_1.mp hx1
        omega
      simp [hall x.1 hxlt]
    refine ⟨?_, ?_, ?_⟩
    · simp [processDuration, hinb, List.isEmpty_iff, hne, hflag]
    · rw [hspec]
      simp only
      rw [List.filter_eq_self.mpr hallzip, List.length_map, List.length_zip,
        hlenr, Nat.min_self]
    · rw [hspec]
      simp only
      have hnil : List.filter (fun x => accept x.1)
          ((List.range'
            0 (inbounds.filter (fun ib => ib.enable)).length).zip
              (inbounds.filter (fun ib => ib.enable))) = [] := by
        rw [List.filter_eq_nil_iff]
        intro x hx
        have hb := hallzip x hx
        simp only [Bool.not_eq_true'] at hb
        simp [hb]
      rw [hnil]
      simp
  · intro hne hex
    obtain ⟨i, hilt, hiacc⟩ := hex
    have hinb : inbounds.isEmpty = false := by
      cases hi : inbounds with
      | nil => exact absurd (by simp [hi]) hne
      | cons a l => simp
    have hanyt :
        (List.range'
          0 (inbounds.filter (fun ib => ib.enable)).length).any accept
          = true := by
      rw [List.any_eq_true]
      exact ⟨i, List.mem_range'_1.mpr ⟨Nat.zero_le _, by omega⟩, hiacc⟩
    have hflag :
        (createLoop p accept 0
          (inbounds.filter (fun ib => ib.enable))).2.2 = true := by
      rw [hspec]
      exact hanyt
    have hmapfst :
        ((List.range'
          0 (inbounds.filter (fun ib => ib.enable)).length).zip
            (inbounds.filter (fun ib => ib.enable))).map Prod.fst
          = List.range' 0 (inbounds.filter (fun ib => ib.enable)).length :=
      List.map_fst_zip _ _ (by rw [hlenr])
    refine ⟨?_, ?_, ?_⟩
    · simp [processDuration, hinb, List.isEmpty_iff, hne, hflag]
    · rw [hspec]
      simp only [List.length_map]
      rw [← List.countP_eq_length_filter]
      have h2 := List.countP_map accept Prod.fst
        ((List.range'
          0 (inbounds.filter (fun ib => ib.enable)).length).zip
            (inbounds.filter (fun ib => ib.enable)))
      rw [hmapfst] at h2
      simp only [Function.comp_def] at h2
      rw [List.range_eq_range', ← h2]
    · rw [hspec]
      simp only [List.length_map]
      rw [← List.countP_eq_length_filter]
      have h2 := List.countP_map (fun i => !accept i) Prod.fst
        ((List.range'
          0 (inbounds.filter (fun ib => ib.enable)).length).zip
            (inbounds.filter (fun ib => ib.enable)))
      rw [hmapfst] at h2
      simp only [Function.comp_def] at h2
      rw [List.range_eq_range', ← h2]

/-- Witness for C1: with three enabled inbounds of which the first two accept
and the third rejects, the create reports success with exactly 2 created
identifiers and exactly 1 warning. -/
theorem processDuration_three_outcomes_witness :
    processDuration
        [{ id := 1, up := 0, down := 0, total := 0, remark := "a",
           enable := true, expiryTime := 0, clientStats := [],
           settings := SettingsBlob.empty },
         { id := 2, up := 0, down := 0, total := 0, remark := "b",
           enable := true, expiryTime := 0, clientStats := [],
           settings := SettingsBlob.empty },
         { id := 3, up := 0, down := 0, total := 0, remark := "c",
           enable := true, expiryTime := 0, clientStats := [],
           settings := SettingsBlob.empty }]
        { baseUsername := "alice", commonSubId := "sub1",
          baseFingerprint := "fp", senderID := 7, expiryTime := 0 }
        (fun i => decide (i < 2))
      = CreateOutcome.ok ["alice-1", "alice-2"] [3] := by
  have h := (processDuration_three_outcomes
    [{ id := 1, up := 0, down := 0, total := 0, remark := "a",
       enable := true, expiryTime := 0, clientStats := [],
       settings := SettingsBlob.empty },
     { id := 2, up := 0, down := 0, total := 0, remark := "b",
       enable := true, expiryTime := 0, clientStats := [],
       settings := SettingsBlob.empty },
     { id := 3, up := 0, down := 0, total := 0, remark := "c",
       enable := true, expiryTime := 0, clientStats := [],
       settings := SettingsBlob.empty }]
    { baseUsername := "alice", commonSubId := "sub1",
      baseFingerprint := "fp", senderID := 7, expiryTime := 0 }
    (fun i => decide (i < 2))).2.2 (by decide) ⟨0, by decide, by decide⟩
  rw [h.1]
  decide

/-- C2: the creation loop submits one client-add request per enabled inbound;
the identifier submitted to the i-th enabled inbound (1-based) is exactly
base-i; every submitted record carries the one shared subscription identifier
and the one expiry computed for the request; that expiry is 0 for infinite
duration and now plus d times 86,400,000 milliseconds for a valid finite
duration of d days. -/
theorem createClientsForAllInbounds_correct (p : CreationParams)
    (inbounds : List Inbound) (i : Nat) (d nowMs : Int)
    (hi : i < (inbounds.filter (fun ib => ib.enable)).length)
    (hd1 : 1 ≤ d) (hd2 : d ≤ 3650) :
    (submittedClients p (inbounds.filter (fun ib => ib.enable))).length
        = (inbounds.filter (fun ib => ib.enable)).length ∧
    ((inbounds.filter (fun ib => ib.enable))[i]?).isSome = true ∧
    (submittedClients p (inbounds.filter (fun ib => ib.enable)))[i]?
        = ((inbounds.filter (fun ib => ib.enable))[i]?).map
            (fun ib => (ib.id, mkClientForInbound p i)) ∧
    (mkClientForInbound p i).email
        = p.baseUsername ++ "-" ++ toString (i + 1) ∧
    (∀ x ∈ submittedClients p (inbounds.filter (fun ib => ib.enable)),
      x.2.subId = p.commonSubId ∧ x.2.expiryTime = p.expiryTime) ∧
    calculateExpiryTime DurationInput.infinite nowMs = Except.ok 0 ∧
    calculateExpiryTime (DurationInput.days d) nowMs
        = Except.ok (nowMs + d * 86400000) := by
  refine ⟨?_, ?_, ?_, ?_, ?_, ?_, ?_⟩
  · exact submitLoop_length p _ 0
  · simp [List.getElem?_eq_getElem, hi]
  · have h := submitLoop_getElem p (inbounds.filter (fun ib => ib.enable)) 0 i
    simpa [submittedClients] using h
  · rfl
  · exact submitLoop_shared_fields p _ 0
  · rfl
  · have hlt : ¬ (d < 1) := by omega
    have hgt : ¬ (d > 3650) := by omega
    simp only [calculateExpiryTime, validateDuration, hlt, if_false, hgt]
    norm_num

/-- Witness for C2: with two enabled inbounds the second submission goes to
the second enabled inbound under the identifier alice-2, carrying the shared
subscription id; a 30-day duration from epoch-time 1000 expires at
1000 + 2,592,000,000. -/
theorem createClientsForAllInbounds_correct_witness :
    (mkClientForInbound
        { baseUsername := "alice", commonSubId := "sub1",
          baseFingerprint := "fp", senderID := 7, expiryTime := 1000 }
        1).email = "alice-2" ∧
    calculateExpiryTime (DurationInput.days 30) 1000
      = Except.ok 2592001000 := by
  have h := createClientsForAllInbounds_correct
    { baseUsername := "alice", commonSubId := "sub1",
      baseFingerprint := "fp", senderID := 7, expiryTime := 1000 }
    [{ id := 1, up := 0, down := 0, total := 0, remark := "a",
       enable := true, expiryTime := 0, clientStats := [],
       settings := SettingsBlob.empty },
     { id := 2, up := 0, down := 0, total := 0, remark := "b",
       enable := true, expiryTime := 0, clientStats := [],
       settings := SettingsBlob.empty }]
    1 30 1000 (by decide) (by decide) (by decide)
  refine ⟨?_, ?_⟩
  · rw [h.2.2.2.1]
    decide
  · rw [h.2.2.2.2.2.2]
    norm_num

/-! ## Extend duration
(`AdminHandler.processExtendDuration`, admin.go lines 711-797) -/

/-- The nested search loop of `processExtendDuration`: the first inbound
holding a client stat whose email equals the username, paired with the first
such stat of that inbound (both loops break on the first hit). -/
def findFirstClient (inbounds : List Inbound) (username : String) :
    Option (Inbound × ClientStat) :=
  match inbounds with
  | [] => none
  | ib :: rest =>
    match ib.clientStats.find? (fun st => st.email == username) with
    | some st => some (ib, st)
    | none => findFirstClient rest username

/-- The replacement client record built by `processExtendDuration`: same
identifier, enable flag carried over, total converted from bytes to GB
(Go integer division truncates), expiry extended by the requested days in
milliseconds, fresh subscription id. -/
def mkUpdatedClient (username : String) (st : ClientStat) (days : Int)
    (senderID : Int) (subId : String) : Client :=
  { id := username
  , enable := st.enable
  , flow := none
  , email := username
  , totalGB := Int.tdiv st.total (1024 * 1024 * 1024)
  , limitIP := 0
  , expiryTime := st.expiryTime + days * (24 * 60 * 60 * 1000)
  , fingerprint := ""
  , tgId := toString senderID
  , subId := subId }

/-- Observable outcome of `processExtendDuration` after duration parsing:
either no inbound held a matching record (nothing modified, not-found
reported) or the matched record is replaced — `RemoveClients` on the old
identifier followed by `AddClient` of the updated record on the matched
inbound. -/
inductive ExtendOutcome where
  | notFound
  | replaced (inboundId : Int) (removedEmail : String) (newClient : Client)
deriving DecidableEq, Repr

/-- `AdminHandler.processExtendDuration` from the point where the day count
has been parsed and the inbound list fetched. -/
def processExtendDuration (inbounds : List Inbound) (username : String)
    (days : Int) (senderID : Int) (subId : String) : ExtendOutcome :=
  match findFirstClient inbounds username with
  | none => .notFound
  | some (ib, st) =>
    .replaced ib.id username (mkUpdatedClient username st days senderID subId)

theorem findFirstClient_none (username : String) :
    ∀ inbounds : List Inbound, findFirstClient inbounds username = none →
      ∀ ib ∈ inbounds, ∀ st ∈ ib.clientStats, st.email ≠ username := by
  intro inbounds
  induction inbounds with
  | nil => intro _ ib hib; simp at hib
  | cons a rest ih =>
    intro h ib hib st hst
    rw [findFirstClient] at h
    cases hf : a.clientStats.find? (fun st => st.email == username) with
    | some st0 => rw [hf] at h; simp at h
    | none =>
      rw [hf] at h
      rcases List.mem_cons.mp hib with hib | hib
      · subst hib
        have := List.find?_eq_none.mp hf st hst
        simpa using this
      · exact ih h ib hib st hst

theorem findFirstClient_some (username : String) :
    ∀ (inbounds : List Inbound) (ib : Inbound) (st : ClientStat),
      findFirstClient inbounds username = some (ib, st) →
      st ∈ ib.clientStats ∧ st.email = username ∧
      ∃ pre post, inbounds = pre ++ ib :: post ∧
        ∀ ib2 ∈ pre, ∀ st2 ∈ ib2.clientStats, st2.email ≠ username := by
  intro inbounds
  induction inbounds with
  | nil => intro ib st h; simp [findFirstClient] at h
  | cons a rest ih =>
    intro ib st h
    rw [findFirstClient] at h
    cases hf : a.clientStats.find? (fun st => st.email == username) with
    | some st0 =>
      rw [hf] at h
      have hpair : a = ib ∧ st0 = st := by
        have := h
        simp at this
        exact this
      obtain ⟨rfl, rfl⟩ := hpair
      refine ⟨List.mem_of_find?_eq_some hf, ?_, [], rest, rfl, ?_⟩
      · have := List.find?_some hf
        simpa using this
      · intro ib2 hib2
        simp at hib2
    | none =>
      rw [hf] at h
      obtain ⟨hmem, hemail, pre, post, heq, hpre⟩ := ih ib st h
      refine ⟨hmem, hemail, a :: pre, post, by rw [heq]; rfl, ?_⟩
      intro ib2 hib2 st2 hst2
      rcases List.mem_cons.mp hib2 with hib2 | hib2
      · subst hib2
        have := List.find?_eq_none.mp hf st2 hst2
        simpa using this
      · exact hpre ib2 hib2 st2 hst2

/-- C6: with some inbound holding a matching record, extension acts on the
first such inbound only, computes the new expiry as the existing record's
expiry plus d times 86,400,000 milliseconds, and replaces the record
(removing the old identifier, adding the updated one); with no match nothing
is modified and not-found is reported. -/
theorem processExtendDuration_correct (inbounds : List Inbound)
    (username : String) (days senderID : Int) (subId : String) :
    (findFirstClient inbounds username = none →
      processExtendDuration inbounds username days senderID subId
          = ExtendOutcome.notFound ∧
      ∀ ib ∈ inbounds, ∀ st ∈ ib.clientStats, st.email ≠ username) ∧
    (∀ ib st, findFirstClient inbounds username = some (ib, st) →
      processExtendDuration inbounds username days senderID subId
          = ExtendOutcome.replaced ib.id username
            (mkUpdatedClient username st days senderID subId) ∧
      (mkUpdatedClient username st days senderID subId).expiryTime
          = st.expiryTime + days * 86400000 ∧
      st ∈ ib.clientStats ∧ st.email = username ∧
      ∃ pre post, inbounds = pre ++ ib :: post ∧
        ∀ ib2 ∈ pre, ∀ st2 ∈ ib2.clientStats, st2.email ≠ username) := by
  constructor
  · intro h
    refine ⟨?_, findFirstClient_none username inbounds h⟩
    rw [processExtendDuration, h]
  · intro ib st h
    refine ⟨?_, ?_, findFirstClient_some username inbounds ib st h⟩
    · rw [processExtendDuration, h]
    · show st.expiryTime + days * (24 * 60 * 60 * 1000)
          = st.expiryTime + days * 86400000
      norm_num

/-- Sample usage record of bob-1 in the first sample inbound. -/
def sampleStatBob : ClientStat :=
  { id := 1, inboundId := 4, enable := true, email := "bob-1", up := 0,
    down := 0, expiryTime := 0, total := 0, reset := 0 }

/-- Sample usage record of alice-1 in the second sample inbound. -/
def sampleStatAlice : ClientStat :=
  { id := 2, inboundId := 5, enable := true, email := "alice-1", up := 0,
    down := 0, expiryTime := 100, total := 0, reset := 0 }

/-- Sample inbound without a record for alice-1. -/
def sampleInbound4 : Inbound :=
  { id := 4, up := 0, down := 0, total := 0, remark := "a", enable := true,
    expiryTime := 0, clientStats := [sampleStatBob],
    settings := SettingsBlob.empty }

/-- Sample inbound holding the record for alice-1. -/
def sampleInbound5 : Inbound :=
  { id := 5, up := 0, down := 0, total := 0, remark := "b", enable := true,
    expiryTime := 0, clientStats := [sampleStatAlice],
    settings := SettingsBlob.empty }

/-- Witness for C6 at a concrete two-inbound state: the matching record lives
in the second inbound (id 5, expiry 100); a 7-day extension replaces it there
with expiry 100 + 604,800,000. -/
theorem processExtendDuration_correct_witness :
    processExtendDuration [sampleInbound4, sampleInbound5] "alice-1" 7 9 "s2"
      = ExtendOutcome.replaced 5 "alice-1"
          (mkUpdatedClient "alice-1" sampleStatAlice 7 9 "s2") ∧
    (mkUpdatedClient "alice-1" sampleStatAlice 7 9 "s2").expiryTime
      = 100 + 7 * 86400000 := by
  have h := (processExtendDuration_correct [sampleInbound4, sampleInbound5]
    "alice-1" 7 9 "s2").2 sampleInbound5 sampleStatAlice (by decide)
  refine ⟨h.1, ?_⟩
  rw [h.2.1]
  decide

/-! ## Association lists

Go maps (`map[string]string`, `map[string]*SubscriptionSummary`, and the
go-cache item map) are modelled as association lists with overwrite-on-insert
and first-match lookup; a Go map never holds duplicate keys, which the
operations below preserve. -/

/-- Map assignment `m[k] = v`: overwrite an existing binding in place,
otherwise append. -/
def alistInsert {κ α : Type} [DecidableEq κ] :
    List (κ × α) → κ → α → List (κ × α)
  | [], k, v => [(k, v)]
  | (k0, v0) :: rest, k, v =>
    if k0 = k then (k, v) :: rest else (k0, v0) :: alistInsert rest k v

/-- Map lookup `m[k]`. -/
def alistLookup {κ α : Type} [DecidableEq κ] :
    List (κ × α) → κ → Option α
  | [], _ => none
  | (k0, v0) :: rest, k => if k0 = k then some v0 else alistLookup rest k

/-- Map deletion `delete(m, k)`. -/
def alistErase {κ α : Type} [DecidableEq κ] :
    List (κ × α) → κ → List (κ × α)
  | [], _ => []
  | (k0, v0) :: rest, k =>
    if k0 = k then alistErase rest k else (k0, v0) :: alistErase rest k

theorem alistLookup_insert {κ α : Type} [DecidableEq κ]
    (m : List (κ × α)) (k : κ) (v : α) :
    alistLookup (alistInsert m k v) k = some v := by
  induction m with
  | nil => simp [alistInsert, alistLookup]
  | cons e rest ih =>
    by_cases h : e.1 = k
    · simp [alistInsert, alistLookup, h]
    · simp [alistInsert, alistLookup, h, ih]

theorem alistLookup_insert_ne {κ α : Type} [DecidableEq κ]
    (m : List (κ × α)) (k k2 : κ) (v : α) (hne : k2 ≠ k) :
    alistLookup (alistInsert m k v) k2 = alistLookup m k2 := by
  induction m with
  | nil =>
    have h2 : ¬ (k = k2) := fun h3 => hne h3.symm
    simp [alistInsert, alistLookup, h2]
  | cons e rest ih =>
    by_cases h : e.1 = k
    · have h2 : ¬ (k = k2) := fun h3 => hne h3.symm
      have h4 : ¬ (e.1 = k2) := by rw [h]; exact h2
      simp [alistInsert, alistLookup, h, h2, h4]
    · simp only [alistInsert, h, if_false]
      by_cases h3 : e.1 = k2
      · simp [alistLookup, h3]
      · simp [alistLookup, h3, ih]

theorem alistLookup_erase {κ α : Type} [DecidableEq κ]
    (m : List (κ × α)) (k : κ) :
    alistLookup (alistErase m k) k = none := by
  induction m with
  | nil => simp [alistErase, alistLookup]
  | cons e rest ih =>
    by_cases h : e.1 = k
    · simp [alistErase, h, ih]
    · simp [alistErase, alistLookup, h, ih]

theorem alistLookup_mem {κ α : Type} [DecidableEq κ]
    (m : List (κ × α)) (k : κ) (v : α)
    (h : alistLookup m k = some v) : (k, v) ∈ m := by
  induction m with
  | nil => simp [alistLookup] at h
  | cons e rest ih =>
    obtain ⟨e1, e2⟩ := e
    by_cases he : e1 = k
    · subst he
      rw [alistLookup] at h
      simp only [if_pos rfl] at h
      have hv : e2 = v := by injection h
      subst hv
      exact List.mem_cons_self _ _
    · rw [alistLookup] at h
      simp only [he, if_false] at h
      exact List.mem_cons_of_mem _ (ih h)

/-! ## Conversation state
(`services.UserStateService`, userstate.go; cache `patrickmn/go-cache` with
30-minute TTL and 10-minute sweep) -/

/-- `models.ConversationState` (userstate model file), constructor names as
in Go. -/
inductive ConversationState where
  | Default
  | AwaitingInputUserName
  | AwaitingDuration
  | AwaitSelectUserName
  | AwaitMemberAction
  | AwaitConfirmMemberDeletion
  | AwaitConfirmResetUsersNetworkUsage
  | StateAwaitingTrustedUsername
  | StateAwaitingVpnUsername
  | StateAwaitingVpnPassword
deriving DecidableEq, Repr

/-- `models.SortType`. -/
inductive SortType where
  | SortByCreationOrder
  | SortByExpiryDate
  | SortByTrafficTotal
  | SortByStatus
  | SortByName
deriving DecidableEq, Repr

/-- `models.UserState`. -/
structure UserState where
  state : ConversationState
  payload : Option String
  sortType : Option SortType
  actionType : Option String
deriving DecidableEq, Repr

/-- The default state `GetState` builds when the cache holds nothing for the
user: idle stage, no pending payload. -/
def defaultUserState : UserState :=
  { state := .Default, payload := none, sortType := none, actionType := none }

/-- The go-cache TTL passed in `cache.New(30*time.Minute, ...)`,
in milliseconds. -/
def stateTTLms : Int := 30 * 60 * 1000

/-- The go-cache janitor interval passed in `cache.New(_, 10*time.Minute)`,
in milliseconds (the sweep frees memory; reads already treat expired items
as absent). -/
def stateSweepIntervalMs : Int := 10 * 60 * 1000

/-- The state cache: one entry per user id, carrying the stored state and
its absolute expiration time in milliseconds (go-cache `Item.Expiration`). -/
def StateCache : Type := List (Int × UserState × Int)

/-- `UserStateService.GetState` at time `now`: a cached entry is returned
only when not expired (go-cache `Item.Expired` is `now > Expiration`);
otherwise the default state. -/
def getState (cache : StateCache) (now uid : Int) : UserState :=
  match alistLookup cache uid with
  | some (st, exp) => if now > exp then defaultUserState else st
  | none => defaultUserState

/-- `UserStateService.SetState` at time `now`: store under the user's key
with expiration `now + 30 minutes` (`cache.DefaultExpiration`). -/
def setState (cache : StateCache) (now uid : Int) (st : UserState) :
    StateCache :=
  alistInsert cache uid (st, now + stateTTLms)

/-- `UserStateService.ClearState`. -/
def clearState (cache : StateCache) (uid : Int) : StateCache :=
  alistErase cache uid

/-- The go-cache janitor `DeleteExpired` at time `t`. -/
def sweepCache (cache : StateCache) (t : Int) : StateCache :=
  cache.filter (fun e => !(decide (t > e.2.2)))

theorem alistLookup_not_mem {κ α : Type} [DecidableEq κ]
    (m : List (κ × α)) (k : κ) (h : k ∉ m.map Prod.fst) :
    alistLookup m k = none := by
  induction m with
  | nil => rfl
  | cons e rest ih =>
    have hk : ¬ (e.1 = k) := by
      intro hk
      exact h (by simp [hk])
    rw [alistLookup]
    simp only [hk, if_false]
    exact ih (fun hm => h (by simp [hm]))

theorem alistLookup_sweep (cache : StateCache) (uid ts : Int)
    (hnodup : (cache.map Prod.fst).Nodup) :
    alistLookup (sweepCache cache ts) uid
      = match alistLookup cache uid with
        | some p => if ts > p.2 then none else some p
        | none => none := by
  induction cache with
  | nil => rfl
  | cons e rest ih =>
    obtain ⟨k0, st0, exp0⟩ := e
    have hnotin : k0 ∉ rest.map Prod.fst := (List.nodup_cons.mp hnodup).1
    have hnodup2 : (rest.map Prod.fst).Nodup := (List.nodup_cons.mp hnodup).2
    by_cases hk : k0 = uid
    · subst hk
      by_cases hkeep : ts > exp0
      · have hs : sweepCache ((k0, st0, exp0) :: rest) ts
            = sweepCache rest ts := by
          simp [sweepCache, List.filter_cons, hkeep]
        rw [hs]
        have hnone : alistLookup (sweepCache rest ts) k0 = none := by
          apply alistLookup_not_mem
          intro hmem
          exact hnotin
            ((List.Sublist.map Prod.fst (List.filter_sublist rest)).subset
              hmem)
        rw [hnone]
        rw [show alistLookup ((k0, st0, exp0) :: rest) k0
            = some (st0, exp0) by simp [alistLookup]]
        simp [hkeep]
      · have hs : sweepCache ((k0, st0, exp0) :: rest) ts
            = (k0, st0, exp0) :: sweepCache rest ts := by
          simp [sweepCache, List.filter_cons, hkeep]
        rw [hs]
        rw [show alistLookup ((k0, st0, exp0) :: sweepCache rest ts) k0
            = some (st0, exp0) by simp [alistLookup]]
        rw [show alistLookup ((k0, st0, exp0) :: rest) k0
            = some (st0, exp0) by simp [alistLookup]]
        simp [hkeep]
    · have hlr : alistLookup ((k0, st0, exp0) :: rest) uid
          = alistLookup rest uid := by
        simp [alistLookup, hk]
      rw [hlr]
      by_cases hkeep : ts > exp0
      · have hs : sweepCache ((k0, st0, exp0) :: rest) ts
            = sweepCache rest ts := by
          simp [sweepCache, List.filter_cons, hkeep]
        rw [hs, ih hnodup2]
      · have hs : sweepCache ((k0, st0, exp0) :: rest) ts
            = (k0, st0, exp0) :: sweepCache rest ts := by
          simp [sweepCache, List.filter_cons, hkeep]
        rw [hs]
        rw [show alistLookup ((k0, st0, exp0) :: sweepCache rest ts) uid
            = alistLookup (sweepCache rest ts) uid by
          simp [alistLookup, hk]]
        rw [ih hnodup2]

/-- C9: a user whose conversation state was never set reads as the idle
default with no pending payload; a state set at time t is readable until
t plus 30 minutes and reads as the default strictly afterwards; a second set
overwrites the first; after a clear the next read returns the default again;
and the 10-minute background sweep only removes entries that reads already
treat as absent, so it never changes any read. -/
theorem userStateService_correct (cache : StateCache) (uid t t2 n1 : Int)
    (st : UserState) (hexp : t2 > t + stateTTLms)
    (hfresh : n1 ≤ t + stateTTLms) :
    (getState [] t uid = defaultUserState ∧
      defaultUserState.state = ConversationState.Default ∧
      defaultUserState.payload = none) ∧
    getState (setState cache t uid st) t2 uid = defaultUserState ∧
    getState (setState cache t uid st) n1 uid = st ∧
    (∀ t0 s0, getState (setState (setState cache t0 uid s0) t uid st) n1 uid
      = st) ∧
    getState (clearState cache uid) t uid = defaultUserState ∧
    (∀ ts, ts ≤ t → (cache.map Prod.fst).Nodup →
      getState (sweepCache cache ts) t uid = getState cache t uid) := by
  refine ⟨⟨rfl, rfl, rfl⟩, ?_, ?_, ?_, ?_, ?_⟩
  · rw [getState, setState, alistLookup_insert]
    simp [hexp]
  · rw [getState, setState, alistLookup_insert]
    have h1 : ¬ (n1 > t + stateTTLms) := by omega
    simp [h1]
  · intro t0 s0
    rw [getState, setState, alistLookup_insert]
    have h1 : ¬ (n1 > t + stateTTLms) := by omega
    simp [h1]
  · rw [getState, clearState, alistLookup_erase]
  · intro ts hts hnodup
    rw [getState, getState, alistLookup_sweep cache uid ts hnodup]
    cases h : alistLookup cache uid with
    | none => rfl
    | some p =>
      by_cases hdrop : ts > p.2
      · have hgt : t > p.2 := by omega
        simp [hdrop, hgt]
      · simp [hdrop]

/-- Sample non-idle conversation state with a pending payload. -/
def sampleAwaitState : UserState :=
  { state := .AwaitingDuration, payload := some "alice", sortType := none,
    actionType := none }

/-- Witness for C9 at concrete times: a state set at millisecond 0 is
readable at millisecond 1,800,000 (the 30-minute mark) and reads as the
default at 1,860,001. -/
theorem userStateService_correct_witness :
    getState (setState [] 0 1 sampleAwaitState) 1860001 1
      = defaultUserState ∧
    getState (setState [] 0 1 sampleAwaitState) 1800000 1
      = sampleAwaitState := by
  have h := userStateService_correct [] 1 0 1860001 1800000 sampleAwaitState
    (by decide) (by decide)
  exact ⟨h.2.1, h.2.2.1⟩

/-! ## Session client and the 401 retry
(`xrayclient.Client.GetInbounds` / `AddClientToInbound`, client.go)

Each authenticated call is driven by the finite trace of HTTP responses the
remote panel would return to its successive attempts.  `Login` is assumed to
succeed (the regime the claim speaks about: the panel rejects the session but
accepts credentials). -/

/-- One HTTP response to an authenticated call: 200 with a success body,
401, or any other failure (non-200 or `success:false`). -/
inductive HttpResp where
  | ok
  | unauthorized
  | fail
deriving DecidableEq, Repr

/-- Result of one logical call: terminated with success, terminated with an
error, or still retrying when the trace ran out. -/
inductive CallResult where
  | success
  | error
  | pending
deriving DecidableEq, Repr

/-- `Client.GetInbounds` (the 401 branch of `AddClientToInbound`,
`GetOnlineUsers` and `ResetUserTraffic` is identical): on 401 the cached
session is deleted and the same call re-entered, which logs in afresh and
consumes the next response; there is no retry counter. -/
def getInbounds : List HttpResp → CallResult
  | [] => .pending
  | HttpResp.ok :: _ => .success
  | HttpResp.fail :: _ => .error
  | HttpResp.unauthorized :: rest => getInbounds rest

/-- `Client.GetInbounds` instrumented with the session flag and a count of
`Login` calls that actually performed a login (a login happens exactly when
no session is cached; a 401 deletes the cached session before re-entering). -/
def getInboundsWithLogins : Bool → Nat → List HttpResp → CallResult × Nat
  | hasSession, logins, resps =>
    let logins2 := if hasSession then logins else logins + 1
    match resps with
    | [] => (.pending, logins2)
    | HttpResp.ok :: _ => (.success, logins2)
    | HttpResp.fail :: _ => (.error, logins2)
    | HttpResp.unauthorized :: rest =>
      getInboundsWithLogins false logins2 rest

/-- The login counter is additive in its starting value. -/
theorem getInboundsWithLogins_shift :
    ∀ (resps : List HttpResp) (s : Bool) (l : Nat),
      getInboundsWithLogins s l resps
        = ((getInboundsWithLogins s 0 resps).1,
           l + (getInboundsWithLogins s 0 resps).2) := by
  intro resps
  induction resps with
  | nil =>
    intro s l
    cases s <;> simp [getInboundsWithLogins]
  | cons r rest ih =>
    intro s l
    cases r with
    | ok => cases s <;> simp [getInboundsWithLogins]
    | fail => cases s <;> simp [getInboundsWithLogins]
    | unauthorized =>
      cases s
      · show getInboundsWithLogins false (l + 1) rest
            = ((getInboundsWithLogins false 1 rest).1,
               l + (getInboundsWithLogins false 1 rest).2)
        rw [ih false (l + 1), ih false 1]
        simp
        omega
      · show getInboundsWithLogins false l rest
            = ((getInboundsWithLogins false 0 rest).1,
               l + (getInboundsWithLogins false 0 rest).2)
        exact ih false l

/-- Result of one logical call under C5's claimed discipline. -/
inductive SpecCallResult where
  | success
  | error
  | authFailure
  | pending
deriving DecidableEq, Repr

/-- Modelled from the spec: the claimed behavior of an authenticated call —
on an authorization failure discard the session and retry exactly once after
a fresh login; a second consecutive authorization failure is surfaced as an
authentication error rather than retried again. -/
def specCallRetryOnce : List HttpResp → SpecCallResult
  | [] => .pending
  | HttpResp.ok :: _ => .success
  | HttpResp.fail :: _ => .error
  | HttpResp.unauthorized :: rest =>
    match rest with
    | [] => .pending
    | HttpResp.ok :: _ => .success
    | HttpResp.fail :: _ => .error
    | HttpResp.unauthorized :: _ => .authFailure

/-- C5 counterexample: on the response trace 401, 401, 200 the claim demands
an authentication error after the second consecutive 401, but the code
deletes the session and retries a second time, and the call succeeds. -/
theorem getInbounds_claim_false :
    getInbounds
        [HttpResp.unauthorized, HttpResp.unauthorized, HttpResp.ok]
      = CallResult.success ∧
    specCallRetryOnce
        [HttpResp.unauthorized, HttpResp.unauthorized, HttpResp.ok]
      = SpecCallResult.authFailure := by
  exact ⟨rfl, rfl⟩

/-- C5 (amended): on every authorization failure the client discards the
cached session and retries the call after a fresh login, with no bound on
the number of consecutive authorization failures: after n consecutive 401
responses the call has performed one fresh login per retried attempt
(plus one for the first attempt when no session was cached), succeeds if the
next response is a success, errors only on a non-401 failure, and is still
retrying — never surfacing an authentication error — while 401s keep
coming. -/
theorem getInbounds_retries_unbounded (n : Nat) (s : Bool)
    (rest : List HttpResp) :
    getInbounds (List.replicate n HttpResp.unauthorized ++ rest)
        = getInbounds rest ∧
    (getInboundsWithLogins s 0
        (List.replicate n HttpResp.unauthorized ++ [HttpResp.ok]))
      = (CallResult.success, n + (if s then 0 else 1)) ∧
    getInbounds (List.replicate n HttpResp.unauthorized ++ [HttpResp.fail])
        = CallResult.error ∧
    getInbounds (List.replicate n HttpResp.unauthorized)
        = CallResult.pending := by
  refine ⟨?_, ?_, ?_, ?_⟩
  · induction n with
    | zero => simp
    | succ k ih => simpa [List.replicate_succ, getInbounds] using ih
  · induction n generalizing s with
    | zero => cases s <;> rfl
    | succ k ih =>
      have h := ih false
      simp only [if_neg Bool.false_ne_true] at h
      have hstep : getInboundsWithLogins s 0
          (List.replicate (k + 1) HttpResp.unauthorized ++ [HttpResp.ok])
          = getInboundsWithLogins false (if s = true then 0 else 1)
            (List.replicate k HttpResp.unauthorized ++ [HttpResp.ok]) := by
        cases s <;> rfl
      rw [hstep, getInboundsWithLogins_shift, h]
      cases s <;> simp <;> omega
  · induction n with
    | zero => rfl
    | succ k ih => simpa [List.replicate_succ, getInbounds] using ih
  · induction n with
    | zero => rfl
    | succ k ih => simpa [List.replicate_succ, getInbounds] using ih

/-! ## Subscription-identifier aggregation
(`helpers.CreateEmailToSubIDMapping` and `helpers.AggregateUserDataBySubID`,
subscription.go lines 71-135) -/

/-- `helpers.CreateEmailToSubIDMapping`: walk the inbounds, skip those whose
settings are the empty string or fail to parse, and record every client's
email-to-subscription-id assignment whose subscription id is non-empty. -/
def createEmailToSubIDMapping (inbounds : List Inbound) :
    List (String × String) :=
  inbounds.foldl
    (fun m ib =>
      match ib.settings with
      | SettingsBlob.parsed clients =>
        clients.foldl
          (fun m2 c =>
            if c.subId ≠ "" then alistInsert m2 c.email c.subId else m2)
          m
      | _ => m)
    []

/-- `helpers.SubscriptionSummary`. -/
structure SubscriptionSummary where
  totalUp : Int
  totalDown : Int
  enable : Bool
  expiryTime : Int
  inboundNames : List String
  emails : List String
deriving DecidableEq, Repr

/-- `helpers.addUniqueString`. -/
def addUniqueString (l : List String) (s : String) : List String :=
  if s ∈ l then l else l ++ [s]

/-- The fresh summary built when a subscription id is first seen. -/
def initSummary (st : ClientStat) : SubscriptionSummary :=
  { totalUp := 0, totalDown := 0, enable := st.enable,
    expiryTime := st.expiryTime, inboundNames := [], emails := [] }

/-- The in-place update of a summary by one usage record (also applied to a
freshly initialized summary, as in the Go loop body). -/
def updateSummary (sum : SubscriptionSummary) (remark : String)
    (st : ClientStat) : SubscriptionSummary :=
  { totalUp := sum.totalUp + st.up
  , totalDown := sum.totalDown + st.down
  , enable := if st.enable then true else sum.enable
  , expiryTime :=
      if st.expiryTime > sum.expiryTime then st.expiryTime
      else sum.expiryTime
  , inboundNames := addUniqueString sum.inboundNames remark
  , emails := addUniqueString sum.emails st.email }

/-- One iteration of the aggregation loop body for the usage record `st` of
the inbound named `remark`. -/
def aggStep (emap : List (String × String)) (remark : String)
    (m : List (String × SubscriptionSummary)) (st : ClientStat) :
    List (String × SubscriptionSummary) :=
  match alistLookup emap st.email with
  | none => m
  | some sid =>
    match alistLookup m sid with
    | none => alistInsert m sid (updateSummary (initSummary st) remark st)
    | some sum => alistInsert m sid (updateSummary sum remark st)

/-- `helpers.AggregateUserDataBySubID`. -/
def aggregateUserDataBySubID (inbounds : List Inbound) :
    List (String × SubscriptionSummary) :=
  inbounds.foldl
    (fun m ib =>
      ib.clientStats.foldl
        (aggStep (createEmailToSubIDMapping inbounds) ib.remark) m)
    []

/-- All usage records of all inbounds, each tagged with its inbound's
remark, in iteration order. -/
def taggedStats (inbounds : List Inbound) : List (String × ClientStat) :=
  inbounds.flatMap (fun ib => ib.clientStats.map (fun st => (ib.remark, st)))

/-- The aggregation loop as a single fold over remark-tagged records. -/
def aggList (emap : List (String × String))
    (l : List (String × ClientStat)) :
    List (String × SubscriptionSummary) :=
  l.foldl (fun m x => aggStep emap x.1 m x.2) []

/-- The usage records that the map sends to the subscription id `sid`. -/
def relevantStats (emap : List (String × String)) (sid : String)
    (l : List (String × ClientStat)) : List (String × ClientStat) :=
  l.filter (fun x => decide (alistLookup emap x.2.email = some sid))

/-- The summary of a group, written as an explicit fold over its member
records in order. -/
def specCombine : List (String × ClientStat) → Option SubscriptionSummary
  | [] => none
  | x :: t =>
    some (t.foldl (fun s y => updateSummary s y.1 y.2)
      (updateSummary (initSummary x.2) x.1 x.2))

theorem ite_gt_eq_max_int (a b : Int) : (if b > a then b else a) = max a b := by
  rcases le_or_lt b a with h | h
  · rw [if_neg (by omega), max_eq_left h]
  · rw [if_pos h, max_eq_right (le_of_lt h)]

/-- A fold whose step ignores the skipped elements equals the fold over the
kept ones. -/
theorem foldl_filter_skip {α β : Type} (f : β → α → β) (keep : α → Bool)
    (h : ∀ b x, keep x = false → f b x = b) :
    ∀ (l : List α) (b : β), List.foldl f b l = List.foldl f b (l.filter keep) := by
  intro l
  induction l with
  | nil => intro b; rfl
  | cons x rest ih =>
    intro b
    by_cases hx : keep x = true
    · simp [List.filter_cons, hx, ih]
    · have hx2 : keep x = false := by
        cases hk : keep x
        · rfl
        · exact absurd hk hx
      simp [List.filter_cons, hx2, h b x hx2, ih]

/-- The nested aggregation loops equal the single fold over tagged
records. -/
theorem aggregate_eq_aggList (inbounds : List Inbound)
    (emap : List (String × String)) :
    ∀ m0 : List (String × SubscriptionSummary),
      inbounds.foldl
        (fun m ib => ib.clientStats.foldl (aggStep emap ib.remark) m) m0
      = (taggedStats inbounds).foldl (fun m x => aggStep emap x.1 m x.2)
          m0 := by
  induction inbounds with
  | nil => intro m0; rfl
  | cons ib rest ih =>
    intro m0
    show rest.foldl _ (ib.clientStats.foldl (aggStep emap ib.remark) m0)
        = _
    rw [ih]
    show _ = (taggedStats (ib :: rest)).foldl _ m0
    have htag : taggedStats (ib :: rest)
        = ib.clientStats.map (fun st => (ib.remark, st))
          ++ taggedStats rest := by
      simp [taggedStats]
    rw [htag, List.foldl_append, List.foldl_map]

theorem alistLookup_insert_cases {κ α : Type} [DecidableEq κ]
    (m : List (κ × α)) (k : κ) (v : α) (k2 : κ) :
    alistLookup (alistInsert m k v) k2
      = if k2 = k then some v else alistLookup m k2 := by
  by_cases h : k2 = k
  · subst h
    rw [alistLookup_insert, if_pos rfl]
  · rw [alistLookup_insert_ne m k k2 v h, if_neg h]

/-- The aggregation fold, looked up at any subscription id, yields exactly
the combined summary of the records the map sends to that id. -/
theorem aggList_lookup (emap : List (String × String)) :
    ∀ (l : List (String × ClientStat)) (sid : String),
      alistLookup (aggList emap l) sid
        = specCombine (relevantStats emap sid l) := by
  intro l
  induction l using List.reverseRecOn with
  | nil => intro sid; rfl
  | append_singleton l x ih =>
    intro sid
    have hagg : aggList emap (l ++ [x])
        = aggStep emap x.1 (aggList emap l) x.2 := by
      simp [aggList, List.foldl_concat]
    have hfil : relevantStats emap sid (l ++ [x])
        = relevantStats emap sid l
          ++ (if alistLookup emap x.2.email = some sid then [x]
              else []) := by
      by_cases hc : alistLookup emap x.2.email = some sid
      · simp [relevantStats, List.filter_append, hc]
      · simp [relevantStats, List.filter_append, hc]
    rw [hagg, hfil]
    cases hlook : alistLookup emap x.2.email with
    | none =>
      rw [if_neg (by simp)]
      simp only [List.append_nil]
      simp only [aggStep, hlook]
      exact ih sid
    | some sid0 =>
      by_cases hsid : sid0 = sid
      · subst hsid
        rw [if_pos rfl]
        simp only [aggStep, hlook]
        cases hm : alistLookup (aggList emap l) sid0 with
        | none =>
          have hrel : relevantStats emap sid0 l = [] := by
            have hih := ih sid0
            rw [hm] at hih
            cases hr : relevantStats emap sid0 l with
            | nil => rfl
            | cons y t =>
              rw [hr] at hih
              simp [specCombine] at hih
          rw [hrel]
          simp only [List.nil_append]
          rw [alistLookup_insert]
          rfl
        | some sum =>
          have hih := ih sid0
          rw [hm] at hih
          cases hr : relevantStats emap sid0 l with
          | nil =>
            rw [hr] at hih
            simp [specCombine] at hih
          | cons y t =>
            rw [hr] at hih
            have hsum : sum
                = t.foldl (fun s y => updateSummary s y.1 y.2)
                  (updateSummary (initSummary y.2) y.1 y.2) := by
              simp [specCombine] at hih
              exact hih
            rw [alistLookup_insert]
            show some (updateSummary sum x.1 x.2)
                = specCombine (y :: t ++ [x])
            rw [hsum]
            simp [specCombine, List.foldl_concat]
      · have hne2 : ¬ (alistLookup emap x.2.email = some sid) := by
          rw [hlook]
          intro hcon
          injection hcon with hcon2
          exact hsid hcon2
        rw [if_neg (fun hcon => hsid (Option.some.inj hcon))]
        simp only [List.append_nil]
        simp only [aggStep, hlook]
        have hnesid : sid ≠ sid0 := fun h => hsid h.symm
        cases hm : alistLookup (aggList emap l) sid0 with
        | none =>
          rw [alistLookup_insert_ne _ _ _ _ hnesid]
          exact ih sid
        | some sum =>
          rw [alistLookup_insert_ne _ _ _ _ hnesid]
          exact ih sid

/-- Field values of the summary fold: uploaded and downloaded bytes are
summed, the group is enabled when any member is, and the expiry is the
running maximum. -/
theorem summaryFold_fields :
    ∀ (t : List (String × ClientStat)) (s0 : SubscriptionSummary),
      (t.foldl (fun s y => updateSummary s y.1 y.2) s0).totalUp
          = s0.totalUp + (t.map (fun y => y.2.up)).sum ∧
      (t.foldl (fun s y => updateSummary s y.1 y.2) s0).totalDown
          = s0.totalDown + (t.map (fun y => y.2.down)).sum ∧
      (t.foldl (fun s y => updateSummary s y.1 y.2) s0).enable
          = (s0.enable || t.any (fun y => y.2.enable)) ∧
      (t.foldl (fun s y => updateSummary s y.1 y.2) s0).expiryTime
          = t.foldl (fun e y => max e y.2.expiryTime) s0.expiryTime := by
  intro t
  induction t with
  | nil => intro s0; simp
  | cons y t ih =>
    intro s0
    obtain ⟨h1, h2, h3, h4⟩ := ih (updateSummary s0 y.1 y.2)
    refine ⟨?_, ?_, ?_, ?_⟩
    · simp only [List.foldl_cons, List.map_cons, List.sum_cons]
      rw [h1]
      show s0.totalUp + y.2.up + _ = _
      ring
    · simp only [List.foldl_cons, List.map_cons, List.sum_cons]
      rw [h2]
      show s0.totalDown + y.2.down + _ = _
      ring
    · simp only [List.foldl_cons, List.any_cons]
      rw [h3]
      cases he : y.2.enable <;> simp [updateSummary, he]
    · simp only [List.foldl_cons]
      rw [h4]
      have : (updateSummary s0 y.1 y.2).expiryTime
          = max s0.expiryTime y.2.expiryTime := ite_gt_eq_max_int _ _
      rw [this]

/-- Values recorded by the inner client loop of the mapping builder are
never empty. -/
theorem clientsFold_nonempty :
    ∀ (clients : List InboundClient) (m : List (String × String)),
      (∀ k v, alistLookup m k = some v → v ≠ "") →
      ∀ k v,
        alistLookup
          (clients.foldl
            (fun m2 c =>
              if c.subId ≠ "" then alistInsert m2 c.email c.subId else m2)
            m) k = some v → v ≠ "" := by
  intro clients
  induction clients with
  | nil => intro m hm k v h; exact hm k v h
  | cons c rest ih =>
    intro m hm k v h
    rw [List.foldl_cons] at h
    refine ih _ ?_ k v h
    intro k2 v2 h2
    by_cases hc : c.subId = ""
    · rw [if_neg (fun hn => hn hc)] at h2
      exact hm k2 v2 h2
    · rw [if_pos hc] at h2
      rw [alistLookup_insert_cases] at h2
      by_cases hk : k2 = c.email
      · rw [if_pos hk] at h2
        have hv : c.subId = v2 := by injection h2
        rw [← hv]
        exact hc
      · rw [if_neg hk] at h2
        exact hm k2 v2 h2

/-- Values recorded by the mapping builder over any inbound list are never
empty. -/
theorem inboundsFold_nonempty :
    ∀ (l : List Inbound) (m : List (String × String)),
      (∀ k v, alistLookup m k = some v → v ≠ "") →
      ∀ k v,
        alistLookup
          (l.foldl
            (fun m0 ib =>
              match ib.settings with
              | SettingsBlob.parsed clients =>
                clients.foldl
                  (fun m2 c =>
                    if c.subId ≠ "" then alistInsert m2 c.email c.subId
                    else m2) m0
              | _ => m0) m) k = some v → v ≠ "" := by
  intro l
  induction l with
  | nil => intro m hm k v h; exact hm k v h
  | cons ib rest ih =>
    intro m hm k v h
    rw [List.foldl_cons] at h
    refine ih _ ?_ k v h
    intro k2 v2 h2
    cases hs : ib.settings with
    | parsed clients =>
      simp only [hs] at h2
      exact clientsFold_nonempty clients m hm k2 v2 h2
    | empty =>
      simp only [hs] at h2
      exact hm k2 v2 h2
    | malformed =>
      simp only [hs] at h2
      exact hm k2 v2 h2

/-- C4: the email-to-subscription-id map ignores inbounds with empty or
unparseable settings and clients with an empty subscription id; usage
records whose email is absent from the map contribute to no group; records
sharing a subscription id are combined by summing uploaded and downloaded
bytes, or-ing the enable flags, and taking the maximum expiry. -/
theorem aggregateUserDataBySubID_correct (inbounds : List Inbound)
    (sid : String) (x : String × ClientStat)
    (t : List (String × ClientStat)) :
    createEmailToSubIDMapping inbounds
        = createEmailToSubIDMapping (inbounds.filter (fun ib =>
            match ib.settings with
            | SettingsBlob.parsed _ => true
            | _ => false)) ∧
    (∀ e s2, alistLookup (createEmailToSubIDMapping inbounds) e = some s2 →
      s2 ≠ "") ∧
    alistLookup (aggregateUserDataBySubID inbounds) sid
        = specCombine (relevantStats (createEmailToSubIDMapping inbounds) sid
            (taggedStats inbounds)) ∧
    (relevantStats (createEmailToSubIDMapping inbounds) sid
        (taggedStats inbounds) = [] →
      alistLookup (aggregateUserDataBySubID inbounds) sid = none) ∧
    (relevantStats (createEmailToSubIDMapping inbounds) sid
        (taggedStats inbounds) = x :: t →
      ∃ s, alistLookup (aggregateUserDataBySubID inbounds) sid = some s ∧
        s.totalUp = x.2.up + (t.map (fun y => y.2.up)).sum ∧
        s.totalDown = x.2.down + (t.map (fun y => y.2.down)).sum ∧
        s.enable = (x.2.enable || t.any (fun y => y.2.enable)) ∧
        s.expiryTime
          = t.foldl (fun e y => max e y.2.expiryTime) x.2.expiryTime) := by
  have hlook : alistLookup (aggregateUserDataBySubID inbounds) sid
      = specCombine (relevantStats (createEmailToSubIDMapping inbounds) sid
          (taggedStats inbounds)) := by
    rw [show aggregateUserDataBySubID inbounds
        = aggList (createEmailToSubIDMapping inbounds)
          (taggedStats inbounds) from
      aggregate_eq_aggList inbounds (createEmailToSubIDMapping inbounds) []]
    exact aggList_lookup _ _ _
  refine ⟨?_, ?_, hlook, ?_, ?_⟩
  · unfold createEmailToSubIDMapping
    refine foldl_filter_skip _ _ ?_ inbounds []
    intro b ib hib
    cases hs : ib.settings with
    | parsed clients => rw [hs] at hib; simp at hib
    | empty => simp [hs]
    | malformed => simp [hs]
  · intro e s2 h
    exact inboundsFold_nonempty inbounds []
      (fun k v hkv => by simp [alistLookup] at hkv) e s2 h
  · intro h
    rw [hlook, h]
    rfl
  · intro h
    have h3 : alistLookup (aggregateUserDataBySubID inbounds) sid
        = some (t.foldl (fun s y => updateSummary s y.1 y.2)
            (updateSummary (initSummary x.2) x.1 x.2)) := by
      rw [hlook, h]
      rfl
    obtain ⟨f1, f2, f3, f4⟩ :=
      summaryFold_fields t (updateSummary (initSummary x.2) x.1 x.2)
    refine ⟨_, h3, ?_, ?_, ?_, ?_⟩
    · rw [f1]
      simp [updateSummary, initSummary]
    · rw [f2]
      simp [updateSummary, initSummary]
    · rw [f3]
      cases hx : x.2.enable <;> simp [updateSummary, initSummary, hx]
    · rw [f4]
      congr 1
      simp [updateSummary, initSummary]

/-- Sample settings record assigning alice-1 the subscription id sx. -/
def sampleSettingsClient1 : InboundClient :=
  { id := "u1", email := "alice-1", enable := true, expiryTime := 5,
    subId := "sx", tgId := "7" }

/-- Sample settings record assigning alice-2 the subscription id sx. -/
def sampleSettingsClient2 : InboundClient :=
  { id := "u2", email := "alice-2", enable := false, expiryTime := 9,
    subId := "sx", tgId := "7" }

/-- Sample usage record for alice-1: 10 up, 1 down, enabled, expiry 5. -/
def sampleAggStat1 : ClientStat :=
  { id := 1, inboundId := 1, enable := true, email := "alice-1", up := 10,
    down := 1, expiryTime := 5, total := 0, reset := 0 }

/-- Sample usage record for alice-2: 20 up, 2 down, disabled, expiry 9. -/
def sampleAggStat2 : ClientStat :=
  { id := 2, inboundId := 2, enable := false, email := "alice-2", up := 20,
    down := 2, expiryTime := 9, total := 0, reset := 0 }

/-- First sample inbound for the aggregation witness. -/
def sampleAggInbound1 : Inbound :=
  { id := 1, up := 0, down := 0, total := 0, remark := "in1",
    enable := true, expiryTime := 0, clientStats := [sampleAggStat1],
    settings := SettingsBlob.parsed [sampleSettingsClient1] }

/-- Second sample inbound for the aggregation witness. -/
def sampleAggInbound2 : Inbound :=
  { id := 2, up := 0, down := 0, total := 0, remark := "in2",
    enable := true, expiryTime := 0, clientStats := [sampleAggStat2],
    settings := SettingsBlob.parsed [sampleSettingsClient2] }

/-- Witness for C4: the two sample records share the subscription id sx and
aggregate to 30 bytes up, 3 down, enabled, expiry 9. -/
theorem aggregateUserDataBySubID_correct_witness :
    ∃ s, alistLookup
        (aggregateUserDataBySubID [sampleAggInbound1, sampleAggInbound2])
        "sx" = some s ∧
      s.totalUp = 30 ∧ s.totalDown = 3 ∧ s.enable = true ∧
      s.expiryTime = 9 := by
  have h := (aggregateUserDataBySubID_correct
    [sampleAggInbound1, sampleAggInbound2] "sx"
    ("in1", sampleAggStat1) [("in2", sampleAggStat2)]).2.2.2.2 (by decide)
  obtain ⟨s, hs, f1, f2, f3, f4⟩ := h
  refine ⟨s, hs, ?_, ?_, ?_, ?_⟩
  · rw [f1]; decide
  · rw [f2]; decide
  · rw [f3]; decide
  · rw [f4]; decide

/-! ## Bulk client removal
(`xrayclient.Client.RemoveClients`, client.go lines 230-308)

The remote delete endpoint is an oracle `δ inboundId uuid` telling whether
the per-uuid delete call succeeds. -/

/-- `xrayclient.Client.extractClientUUID`: the client's id, else its
subscription id, else the email passed as fallback. -/
def extractClientUUID (c : InboundClient) (email : String) : String :=
  if c.id ≠ "" then c.id
  else if c.subId ≠ "" then c.subId
  else email

/-- Errors accumulated by `RemoveClients`: a failed remote delete call
(`Failed to delete %s from inbound %d`) and the distinct not-found report
(`Client %s not found in any inbound`). -/
inductive DelError where
  | deleteFailed (email : String) (inboundId : Int)
  | notFound (email : String)
deriving DecidableEq, Repr

/-- The clients an inbound contributes to the scan: none when its settings
blob is empty or fails to parse (the Go loop continues on
`json.Unmarshal` error). -/
def clientsOf (ib : Inbound) : List InboundClient :=
  match ib.settings with
  | SettingsBlob.parsed cs => cs
  | _ => []

/-- Accumulator of the per-email scan: the `emailDeleted` flag, the error
strings, and the delete calls issued so far. -/
structure EmailScanAcc where
  deleted : Bool
  errors : List DelError
  attempts : List (Int × String)
deriving DecidableEq, Repr

/-- Body of the innermost loop of `RemoveClients`: on a base-name match,
extract the uuid (skipping the degenerate empty uuid), issue the delete
call, and record success or the per-call error. -/
def scanClient (δ : Int → String → Bool) (email : String) (ibid : Int)
    (acc : EmailScanAcc) (c : InboundClient) : EmailScanAcc :=
  if isEmailMatchingBaseUsername c.email email then
    let uuid := extractClientUUID c c.email
    if uuid = "" then acc
    else if δ ibid uuid then
      { deleted := true, errors := acc.errors,
        attempts := acc.attempts ++ [(ibid, uuid)] }
    else
      { deleted := acc.deleted,
        errors := acc.errors ++ [DelError.deleteFailed c.email ibid],
        attempts := acc.attempts ++ [(ibid, uuid)] }
  else acc

/-- The scan of all inbounds for one email. -/
def scanEmail (δ : Int → String → Bool) (inbounds : List Inbound)
    (email : String) : EmailScanAcc :=
  inbounds.foldl
    (fun acc ib => (clientsOf ib).foldl (scanClient δ email ib.id) acc)
    { deleted := false, errors := [], attempts := [] }

/-- Global accumulator of `RemoveClients`: the `successfullyDeleted` flag
and all errors and delete calls. -/
structure RemoveAcc where
  success : Bool
  errors : List DelError
  attempts : List (Int × String)
deriving DecidableEq, Repr

/-- The outer loop of `RemoveClients` over the requested emails; an email
whose scan deleted nothing contributes the distinct not-found error. -/
def removeLoop (δ : Int → String → Bool) (inbounds : List Inbound) :
    List String → RemoveAcc → RemoveAcc
  | [], acc => acc
  | email :: rest, acc =>
    let r := scanEmail δ inbounds email
    let errs2 :=
      if r.deleted then r.errors
      else r.errors ++ [DelError.notFound email]
    removeLoop δ inbounds rest
      { success := acc.success || r.deleted
      , errors := acc.errors ++ errs2
      , attempts := acc.attempts ++ r.attempts }

/-- Overall result of `RemoveClients`: an error (with the collected reports)
exactly when nothing was deleted, otherwise success with the collected
reports logged as warnings. -/
inductive RemoveResult where
  | err (errors : List DelError)
  | ok (warnings : List DelError)
deriving DecidableEq, Repr

/-- `xrayclient.Client.RemoveClients` (after login and inbound fetch). -/
def removeClients (δ : Int → String → Bool) (inbounds : List Inbound)
    (emails : List String) : RemoveResult :=
  let acc := removeLoop δ inbounds emails
    { success := false, errors := [], attempts := [] }
  if acc.success = false then .err acc.errors else .ok acc.errors

/-- The delete calls the scan issues for one email against one inbound's
clients: one per base-name-matched client with a non-empty uuid. -/
def clAttempts (ibid : Int) (email : String)
    (clients : List InboundClient) : List (Int × String) :=
  (clients.filter (fun c => isEmailMatchingBaseUsername c.email email)).filterMap
    (fun c =>
      if extractClientUUID c c.email = "" then none
      else some (ibid, extractClientUUID c c.email))

/-- The per-call failures among those delete calls. -/
def clFails (δ : Int → String → Bool) (ibid : Int) (email : String)
    (clients : List InboundClient) : List DelError :=
  (clients.filter (fun c => isEmailMatchingBaseUsername c.email email)).filterMap
    (fun c =>
      if extractClientUUID c c.email = "" then none
      else if δ ibid (extractClientUUID c c.email) then none
      else some (DelError.deleteFailed c.email ibid))

/-- All delete calls issued for one email. -/
def specAttempts (inbounds : List Inbound) (email : String) :
    List (Int × String) :=
  inbounds.flatMap (fun ib => clAttempts ib.id email (clientsOf ib))

/-- All per-call failures for one email. -/
def specFails (δ : Int → String → Bool) (inbounds : List Inbound)
    (email : String) : List DelError :=
  inbounds.flatMap (fun ib => clFails δ ib.id email (clientsOf ib))

/-- The errors one email contributes: its per-call failures, plus the
not-found report when none of its delete calls succeeded. -/
def errsForEmail (δ : Int → String → Bool) (inbounds : List Inbound)
    (email : String) : List DelError :=
  specFails δ inbounds email ++
    (if (specAttempts inbounds email).any (fun a => δ a.1 a.2) then []
     else [DelError.notFound email])

theorem scanClients_spec (δ : Int → String → Bool) (email : String)
    (ibid : Int) :
    ∀ (clients : List InboundClient) (acc : EmailScanAcc),
      clients.foldl (scanClient δ email ibid) acc
        = { deleted := acc.deleted
              || (clAttempts ibid email clients).any (fun a => δ a.1 a.2)
          , errors := acc.errors ++ clFails δ ibid email clients
          , attempts := acc.attempts ++ clAttempts ibid email clients } := by
  intro clients
  induction clients with
  | nil => intro acc; simp [clAttempts, clFails]
  | cons c rest ih =>
    intro acc
    rw [List.foldl_cons, ih]
    by_cases hm : isEmailMatchingBaseUsername c.email email = true
    · by_cases hu : extractClientUUID c c.email = ""
      · have ha : clAttempts ibid email (c :: rest)
            = clAttempts ibid email rest := by
          simp [clAttempts, List.filter_cons, hm, hu]
        have hf : clFails δ ibid email (c :: rest)
            = clFails δ ibid email rest := by
          simp [clFails, List.filter_cons, hm, hu]
        rw [ha, hf, show scanClient δ email ibid acc c = acc by
          simp [scanClient, hm, hu]]
      · by_cases hd : δ ibid (extractClientUUID c c.email) = true
        · have ha : clAttempts ibid email (c :: rest)
              = (ibid, extractClientUUID c c.email)
                :: clAttempts ibid email rest := by
            simp [clAttempts, List.filter_cons, hm, hu]
          have hf : clFails δ ibid email (c :: rest)
              = clFails δ ibid email rest := by
            simp [clFails, List.filter_cons, hm, hu, hd]
          rw [ha, hf, show scanClient δ email ibid acc c
              = { deleted := true, errors := acc.errors,
                  attempts := acc.attempts
                    ++ [(ibid, extractClientUUID c c.email)] } by
            simp [scanClient, hm, hu, hd]]
          simp [hd]
        · have hd2 : δ ibid (extractClientUUID c c.email) = false := by
            cases h2 : δ ibid (extractClientUUID c c.email)
            · rfl
            · exact absurd h2 hd
          have ha : clAttempts ibid email (c :: rest)
              = (ibid, extractClientUUID c c.email)
                :: clAttempts ibid email rest := by
            simp [clAttempts, List.filter_cons, hm, hu]
          have hf : clFails δ ibid email (c :: rest)
              = DelError.deleteFailed c.email ibid
                :: clFails δ ibid email rest := by
            simp [clFails, List.filter_cons, hm, hu, hd2]
          rw [ha, hf, show scanClient δ email ibid acc c
              = { deleted := acc.deleted,
                  errors := acc.errors
                    ++ [DelError.deleteFailed c.email ibid],
                  attempts := acc.attempts
                    ++ [(ibid, extractClientUUID c c.email)] } by
            simp [scanClient, hm, hu, hd2]]
          simp [hd2]
    · have hm2 : isEmailMatchingBaseUsername c.email email = false := by
        cases h2 : isEmailMatchingBaseUsername c.email email
        · rfl
        · exact absurd h2 hm
      have ha : clAttempts ibid email (c :: rest)
          = clAttempts ibid email rest := by
        simp [clAttempts, List.filter_cons, hm2]
      have hf : clFails δ ibid email (c :: rest)
          = clFails δ ibid email rest := by
        simp [clFails, List.filter_cons, hm2]
      rw [ha, hf, show scanClient δ email ibid acc c = acc by
        simp [scanClient, hm2]]

theorem scanEmail_spec (δ : Int → String → Bool) (email : String) :
    ∀ (inbounds : List Inbound),
      scanEmail δ inbounds email
        = { deleted :=
              (specAttempts inbounds email).any (fun a => δ a.1 a.2)
          , errors := specFails δ inbounds email
          , attempts := specAttempts inbounds email } := by
  suffices h : ∀ (inbounds : List Inbound) (acc : EmailScanAcc),
      inbounds.foldl
        (fun acc ib => (clientsOf ib).foldl (scanClient δ email ib.id) acc)
        acc
        = { deleted := acc.deleted
              || (specAttempts inbounds email).any (fun a => δ a.1 a.2)
          , errors := acc.errors ++ specFails δ inbounds email
          , attempts := acc.attempts ++ specAttempts inbounds email } by
    intro inbounds
    rw [scanEmail, h]
    simp
  intro inbounds
  induction inbounds with
  | nil => intro acc; simp [specAttempts, specFails]
  | cons ib rest ih =>
    intro acc
    rw [List.foldl_cons, scanClients_spec, ih]
    have ha : specAttempts (ib :: rest) email
        = clAttempts ib.id email (clientsOf ib)
          ++ specAttempts rest email := by
      simp [specAttempts]
    have hf : specFails δ (ib :: rest) email
        = clFails δ ib.id email (clientsOf ib)
          ++ specFails δ rest email := by
      simp [specFails]
    rw [ha, hf]
    simp [List.any_append, Bool.or_assoc]

theorem removeLoop_spec (δ : Int → String → Bool)
    (inbounds : List Inbound) :
    ∀ (emails : List String) (acc : RemoveAcc),
      removeLoop δ inbounds emails acc
        = { success := acc.success
              || emails.any (fun e =>
                  (specAttempts inbounds e).any (fun a => δ a.1 a.2))
          , errors := acc.errors
              ++ emails.flatMap (errsForEmail δ inbounds)
          , attempts := acc.attempts
              ++ emails.flatMap (specAttempts inbounds) } := by
  intro emails
  induction emails with
  | nil => intro acc; simp [removeLoop]
  | cons email rest ih =>
    intro acc
    rw [removeLoop, scanEmail_spec, ih]
    simp only [List.any_cons, List.flatMap_cons]
    by_cases hd :
        (specAttempts inbounds email).any (fun a => δ a.1 a.2) = true
    · simp only [hd, if_true]
      have he : errsForEmail δ inbounds email
          = specFails δ inbounds email := by
        simp [errsForEmail, hd]
      rw [he]
      simp [Bool.or_assoc]
    · have hd2 :
          (specAttempts inbounds email).any (fun a => δ a.1 a.2)
            = false := by
        cases h2 : (specAttempts inbounds email).any (fun a => δ a.1 a.2)
        · rfl
        · exact absurd h2 hd
      simp only [hd2, if_false]
      have he : errsForEmail δ inbounds email
          = specFails δ inbounds email ++ [DelError.notFound email] := by
        simp [errsForEmail, hd2]
      rw [he]
      simp [Bool.or_assoc]

theorem flatMap_eq_map_of {α β : Type} (f : α → List β) (g : α → β)
    (l : List α) (h : ∀ x ∈ l, f x = [g x]) : l.flatMap f = l.map g := by
  induction l with
  | nil => rfl
  | cons x rest ih =>
    rw [List.flatMap_cons, List.map_cons, h x (by simp),
      ih (fun y hy => h y (by simp [hy]))]
    rfl

theorem flatMap_eq_nil_of {α β : Type} (f : α → List β) (l : List α)
    (h : ∀ x ∈ l, f x = []) : l.flatMap f = [] := by
  induction l with
  | nil => rfl
  | cons x rest ih =>
    rw [List.flatMap_cons, h x (by simp),
      ih (fun y hy => h y (by simp [hy]))]
    rfl

/-- C8: the bulk delete issues a delete call only for clients whose
identifier base-matches a requested email; it returns an error exactly when
zero delete calls succeeded; and when no identifier matches in any inbound
nothing is attempted and the result is an error carrying one not-found
report per email — a constructor distinct from a remote-call failure. -/
theorem removeClients_correct (δ : Int → String → Bool)
    (inbounds : List Inbound) (emails : List String) :
    removeClients δ inbounds emails
        = (if ((emails.flatMap (specAttempts inbounds)).filter
              (fun a => δ a.1 a.2)) = []
           then RemoveResult.err (emails.flatMap (errsForEmail δ inbounds))
           else RemoveResult.ok
             (emails.flatMap (errsForEmail δ inbounds))) ∧
    (∀ a ∈ (removeLoop δ inbounds emails
        { success := false, errors := [], attempts := [] }).attempts,
      ∃ e ∈ emails, ∃ ib ∈ inbounds, ∃ c ∈ clientsOf ib,
        isEmailMatchingBaseUsername c.email e = true ∧
        a = (ib.id, extractClientUUID c c.email)) ∧
    ((∀ e ∈ emails, ∀ ib ∈ inbounds, ∀ c ∈ clientsOf ib,
        isEmailMatchingBaseUsername c.email e = false) →
      (removeLoop δ inbounds emails
        { success := false, errors := [], attempts := [] }).attempts = [] ∧
      removeClients δ inbounds emails
        = RemoveResult.err (emails.map DelError.notFound)) ∧
    (∀ e1 e2 i, DelError.notFound e1 ≠ DelError.deleteFailed e2 i) := by
  have hiff :
      (emails.any (fun e =>
          (specAttempts inbounds e).any (fun a => δ a.1 a.2))) = false ↔
        (emails.flatMap (specAttempts inbounds)).filter
          (fun a => δ a.1 a.2) = [] := by
    constructor
    · intro h
      rw [List.filter_eq_nil_iff]
      intro a ha
      obtain ⟨e, he, hae⟩ := List.mem_flatMap.mp ha
      have h2 := List.any_eq_false.mp h e he
      have h3 : (specAttempts inbounds e).any (fun a => δ a.1 a.2)
          = false := by
        cases h4 : (specAttempts inbounds e).any (fun a => δ a.1 a.2)
        · rfl
        · exact absurd h4 h2
      exact List.any_eq_false.mp h3 a hae
    · intro h
      rw [List.any_eq_false]
      intro e he hany
      obtain ⟨a, ha, hd⟩ := List.any_eq_true.mp hany
      have hmem : a ∈ (emails.flatMap (specAttempts inbounds)).filter
          (fun a => δ a.1 a.2) :=
        List.mem_filter.mpr ⟨List.mem_flatMap.mpr ⟨e, he, ha⟩, hd⟩
      rw [h] at hmem
      simp at hmem
  refine ⟨?_, ?_, ?_, ?_⟩
  · rw [removeClients]
    rw [removeLoop_spec]
    simp only [Bool.false_or, List.nil_append]
    by_cases hs : (emails.any (fun e =>
        (specAttempts inbounds e).any (fun a => δ a.1 a.2))) = false
    · rw [if_pos hs, if_pos (hiff.mp hs)]
    · have hfil : ¬ ((emails.flatMap (specAttempts inbounds)).filter
          (fun a => δ a.1 a.2) = []) := fun h2 => hs (hiff.mpr h2)
      rw [if_neg hs, if_neg hfil]
  · rw [removeLoop_spec]
    simp only [List.nil_append]
    intro a ha
    obtain ⟨e, he, hae⟩ := List.mem_flatMap.mp ha
    obtain ⟨ib, hib, hcl⟩ := List.mem_flatMap.mp hae
    obtain ⟨c, hcf, hfc⟩ := List.mem_filterMap.mp hcl
    have hcmem := List.mem_filter.mp hcf
    by_cases hu : extractClientUUID c c.email = ""
    · rw [if_pos hu] at hfc
      simp at hfc
    · rw [if_neg hu] at hfc
      have ha2 : (ib.id, extractClientUUID c c.email) = a := by
        injection hfc
      exact ⟨e, he, ib, hib, c, hcmem.1, hcmem.2, ha2.symm⟩
  · intro hnone
    have hattnil : ∀ e ∈ emails, specAttempts inbounds e = [] := by
      intro e he
      refine flatMap_eq_nil_of _ _ ?_
      intro ib hib
      have hfil : (clientsOf ib).filter
          (fun c => isEmailMatchingBaseUsername c.email e) = [] := by
        rw [List.filter_eq_nil_iff]
        intro c hc
        simp [hnone e he ib hib c hc]
      rw [clAttempts, hfil]
      rfl
    have hfailnil : ∀ e ∈ emails, specFails δ inbounds e = [] := by
      intro e he
      refine flatMap_eq_nil_of _ _ ?_
      intro ib hib
      have hfil : (clientsOf ib).filter
          (fun c => isEmailMatchingBaseUsername c.email e) = [] := by
        rw [List.filter_eq_nil_iff]
        intro c hc
        simp [hnone e he ib hib c hc]
      rw [clFails, hfil]
      rfl
    constructor
    · rw [removeLoop_spec]
      simp only [List.nil_append]
      exact flatMap_eq_nil_of _ _ hattnil
    · rw [removeClients, removeLoop_spec]
      simp only [Bool.false_or, List.nil_append]
      have hanyf : (emails.any (fun e =>
          (specAttempts inbounds e).any (fun a => δ a.1 a.2))) = false := by
        rw [List.any_eq_false]
        intro e he
        rw [hattnil e he]
        simp
      rw [if_pos hanyf]
      have herrs : emails.flatMap (errsForEmail δ inbounds)
          = emails.map DelError.notFound := by
        refine flatMap_eq_map_of _ _ _ ?_
        intro e he
        rw [errsForEmail, hattnil e he, hfailnil e he]
        rfl
      rw [herrs]
  · intro e1 e2 i h
    exact DelError.noConfusion h

/-- Delete oracle for the C8 witness: only the uuid u1 can be deleted. -/
def sampleDeleteOracle : Int → String → Bool :=
  fun _ uuid => uuid == "u1"

/-- Witness for C8: deleting the logical member alice over the sample
inbounds attempts both matched records, succeeds on one, and reports overall
success with the one per-call failure; deleting the unknown zed attempts
nothing and errors with the distinct not-found report. -/
theorem removeClients_correct_witness :
    removeClients sampleDeleteOracle [sampleAggInbound1, sampleAggInbound2]
        ["alice"]
      = RemoveResult.ok [DelError.deleteFailed "alice-2" 2] ∧
    removeClients sampleDeleteOracle [sampleAggInbound1, sampleAggInbound2]
        ["zed"]
      = RemoveResult.err [DelError.notFound "zed"] := by
  constructor
  · have h := (removeClients_correct sampleDeleteOracle
      [sampleAggInbound1, sampleAggInbound2] ["alice"]).1
    rw [h]
    decide
  · have h := ((removeClients_correct sampleDeleteOracle
      [sampleAggInbound1, sampleAggInbound2] ["zed"]).2.2.1 (by decide)).2
    rw [h]
    decide

end XuiTgAdmin
